import Mathlib

/-
  Verification of the kanban-project persistence core: the cascade deletion
  engine (server/db-storage.ts) and the access-control decisions made by the
  HTTP route handlers.  Entity rows keep exactly the columns those code paths
  consult; the entity store is a record of tables, and every `db.delete`
  call site becomes one constructor of the `Op` algebra below.
-/

namespace Kanban


/-- A `users` row (shared/schema.ts): surrogate id and global role
(`"admin"` or `"user"`, not null, default `"user"`). -/
structure UserR where
  id : Nat
  role : String
deriving DecidableEq, Repr

/-- A `boards` row: id and nullable owning user (`user_id`). -/
structure BoardR where
  id : Nat
  userId : Option Nat
deriving DecidableEq, Repr

/-- A `lists` row: id and parent board (`board_id`, not null). -/
structure ListR where
  id : Nat
  boardId : Nat
deriving DecidableEq, Repr

/-- A `cards` row: id and parent list (`list_id`, not null). -/
structure CardR where
  id : Nat
  listId : Nat
deriving DecidableEq, Repr

/-- A `labels` row: id and owning board (`board_id`, not null). -/
structure LabelR where
  id : Nat
  boardId : Nat
deriving DecidableEq, Repr

/-- A `card_labels` join row. -/
structure CardLabelR where
  cardId : Nat
  labelId : Nat
deriving DecidableEq, Repr

/-- A `card_members` join row. -/
structure CardMemberR where
  cardId : Nat
  userId : Nat
deriving DecidableEq, Repr

/-- A `comments` row: id, parent card, nullable author. -/
structure CommentR where
  id : Nat
  cardId : Nat
  userId : Option Nat
deriving DecidableEq, Repr

/-- A `checklists` row: id and parent card. -/
structure ChecklistR where
  id : Nat
  cardId : Nat
deriving DecidableEq, Repr

/-- A `checklist_items` row: id and parent checklist. -/
structure ChecklistItemR where
  id : Nat
  checklistId : Nat
deriving DecidableEq, Repr

/-- A `board_members` row: composite key (boardId, userId) plus board role
(`"owner"`, `"editor"` or `"viewer"`). -/
structure BoardMemberR where
  boardId : Nat
  userId : Nat
  role : String
deriving DecidableEq, Repr

/-- The entity store: one list of rows per table. -/
@[ext]
structure St where
  users : List UserR
  boards : List BoardR
  lists : List ListR
  cards : List CardR
  labels : List LabelR
  cardLabels : List CardLabelR
  cardMembers : List CardMemberR
  comments : List CommentR
  checklists : List ChecklistR
  checklistItems : List ChecklistItemR
  boardMembers : List BoardMemberR
deriving DecidableEq, Repr

/-- The delete statements issued by the cascade engine, one constructor per
`db.delete(...).where(...)` call site in db-storage.ts. -/
inductive Op where
  | delCardLabelsByCard (cardId : Nat)
  | delCardMembersByCard (cardId : Nat)
  | delCommentsByCard (cardId : Nat)
  | delChecklistItemsByChecklist (checklistId : Nat)
  | delChecklistsByCard (cardId : Nat)
  | delChecklistById (checklistId : Nat)
  | delCardsByList (listId : Nat)
  | delCardById (cardId : Nat)
  | delListsByBoard (boardId : Nat)
  | delListById (listId : Nat)
  | delLabelsByBoard (boardId : Nat)
  | delBoardMembersByBoard (boardId : Nat)
  | delBoardById (boardId : Nat)
deriving DecidableEq, Repr

/-- Which board rows an op's `where` clause matches. -/
def hitsBoard : Op → BoardR → Bool
  | .delBoardById bid, b => b.id == bid
  | _, _ => false

/-- Which list rows an op matches. -/
def hitsList : Op → ListR → Bool
  | .delListsByBoard bid, l => l.boardId == bid
  | .delListById lid, l => l.id == lid
  | _, _ => false

/-- Which card rows an op matches. -/
def hitsCard : Op → CardR → Bool
  | .delCardsByList lid, c => c.listId == lid
  | .delCardById cid, c => c.id == cid
  | _, _ => false

/-- Which label rows an op matches. -/
def hitsLabel : Op → LabelR → Bool
  | .delLabelsByBoard bid, x => x.boardId == bid
  | _, _ => false

/-- Which card-label rows an op matches. -/
def hitsCardLabel : Op → CardLabelR → Bool
  | .delCardLabelsByCard cid, x => x.cardId == cid
  | _, _ => false

/-- Which card-member rows an op matches. -/
def hitsCardMember : Op → CardMemberR → Bool
  | .delCardMembersByCard cid, x => x.cardId == cid
  | _, _ => false

/-- Which comment rows an op matches. -/
def hitsComment : Op → CommentR → Bool
  | .delCommentsByCard cid, x => x.cardId == cid
  | _, _ => false

/-- Which checklist rows an op matches. -/
def hitsChecklist : Op → ChecklistR → Bool
  | .delChecklistsByCard cid, x => x.cardId == cid
  | .delChecklistById clid, x => x.id == clid
  | _, _ => false

/-- Which checklist-item rows an op matches. -/
def hitsChecklistItem : Op → ChecklistItemR → Bool
  | .delChecklistItemsByChecklist clid, x => x.checklistId == clid
  | _, _ => false

/-- Which board-member rows an op matches. -/
def hitsBoardMember : Op → BoardMemberR → Bool
  | .delBoardMembersByBoard bid, x => x.boardId == bid
  | _, _ => false

/-- Executing one delete statement: every table keeps the rows the op's
`where` clause does not match (user rows are never touched by the cascade
engine). -/
def applyOp (o : Op) (σ : St) : St :=
  { σ with
    boards := σ.boards.filter (fun x => !hitsBoard o x)
    lists := σ.lists.filter (fun x => !hitsList o x)
    cards := σ.cards.filter (fun x => !hitsCard o x)
    labels := σ.labels.filter (fun x => !hitsLabel o x)
    cardLabels := σ.cardLabels.filter (fun x => !hitsCardLabel o x)
    cardMembers := σ.cardMembers.filter (fun x => !hitsCardMember o x)
    comments := σ.comments.filter (fun x => !hitsComment o x)
    checklists := σ.checklists.filter (fun x => !hitsChecklist o x)
    checklistItems := σ.checklistItems.filter (fun x => !hitsChecklistItem o x)
    boardMembers := σ.boardMembers.filter (fun x => !hitsBoardMember o x) }

/-- Executing a sequence of delete statements left to right. -/
def runOps (σ : St) (ops : List Op) : St :=
  ops.foldl (fun s o => applyOp o s) σ

/-! ### The cascade deletion engine (db-storage.ts)

Each `deleteX` is translated as the list of delete statements it issues (its
trace), threading the store state so every `select` reads the state produced
by the statements already executed, exactly as the sequential `await`s do. -/

/-- The per-card descendant cleanup block shared verbatim by `deleteCard`,
`deleteList` and `deleteBoard`: delete the card's card-labels, card-members
and comments, then the items of each checklist of the card, then its
checklists. -/
def cardCleanupOps (σ : St) (cid : Nat) : List Op :=
  let ops₁ : List Op :=
    [.delCardLabelsByCard cid, .delCardMembersByCard cid, .delCommentsByCard cid]
  let σ₁ := runOps σ ops₁
  let cardChecklists := σ₁.checklists.filter (fun cl => cl.cardId == cid)
  ops₁ ++ cardChecklists.map (fun cl => Op.delChecklistItemsByChecklist cl.id)
    ++ [Op.delChecklistsByCard cid]

/-- The cleanup loop over a list of cards (`for (const card of listCards)`). -/
def cardsCleanupOps (σ : St) : List CardR → List Op
  | [] => []
  | c :: rest =>
    let ops := cardCleanupOps σ c.id
    ops ++ cardsCleanupOps (runOps σ ops) rest

/-- All delete statements issued by `DatabaseStorage.deleteCard`. -/
def deleteCardTrace (σ : St) (cid : Nat) : List Op :=
  cardCleanupOps σ cid ++ [Op.delCardById cid]

/-- `DatabaseStorage.deleteCard`: descendant cleanup, then delete the card
row; returns whether that final delete removed a row, with the final store
state. -/
def deleteCard (σ : St) (cid : Nat) : Bool × St :=
  let σ₁ := runOps σ (cardCleanupOps σ cid)
  (σ₁.cards.any (fun c => c.id == cid), applyOp (Op.delCardById cid) σ₁)

/-- The delete statements issued by `deleteList` before the `lists` row
itself is deleted: cleanup of every card of the list, then the bulk delete
of the list's cards. -/
def listCleanupOps (σ : St) (lid : Nat) : List Op :=
  let listCards := σ.cards.filter (fun c => c.listId == lid)
  cardsCleanupOps σ listCards ++ [Op.delCardsByList lid]

/-- All delete statements issued by `DatabaseStorage.deleteList`. -/
def deleteListTrace (σ : St) (lid : Nat) : List Op :=
  listCleanupOps σ lid ++ [Op.delListById lid]

/-- `DatabaseStorage.deleteList`: card cleanup, bulk-delete the list's
cards, then delete the list row, returning whether it existed. -/
def deleteList (σ : St) (lid : Nat) : Bool × St :=
  let σ₁ := runOps σ (listCleanupOps σ lid)
  (σ₁.lists.any (fun l => l.id == lid), applyOp (Op.delListById lid) σ₁)

/-- The loop of `deleteBoard` over the board's lists: for each list, clean
up its cards and bulk-delete them. -/
def listsCleanupOps (σ : St) : List ListR → List Op
  | [] => []
  | l :: rest =>
    let ops := listCleanupOps σ l.id
    ops ++ listsCleanupOps (runOps σ ops) rest

/-- The delete statements issued by `deleteBoard` before the `boards` row
itself is deleted. -/
def boardCleanupOps (σ : St) (bid : Nat) : List Op :=
  let boardLists := σ.lists.filter (fun l => l.boardId == bid)
  listsCleanupOps σ boardLists
    ++ [Op.delListsByBoard bid, Op.delLabelsByBoard bid, Op.delBoardMembersByBoard bid]

/-- All delete statements issued by `DatabaseStorage.deleteBoard`. -/
def deleteBoardTrace (σ : St) (bid : Nat) : List Op :=
  boardCleanupOps σ bid ++ [Op.delBoardById bid]

/-- `DatabaseStorage.deleteBoard`: per-list card cleanup, bulk-delete the
board's lists, labels and board-members, then delete the board row,
returning whether it existed. -/
def deleteBoard (σ : St) (bid : Nat) : Bool × St :=
  let σ₁ := runOps σ (boardCleanupOps σ bid)
  (σ₁.boards.any (fun b => b.id == bid), applyOp (Op.delBoardById bid) σ₁)

/-- All delete statements issued by `DatabaseStorage.deleteChecklist`. -/
def deleteChecklistTrace (clid : Nat) : List Op :=
  [Op.delChecklistItemsByChecklist clid, Op.delChecklistById clid]

/-- `DatabaseStorage.deleteChecklist`: delete the checklist's items, then
the checklist row, returning whether it existed. -/
def deleteChecklist (σ : St) (clid : Nat) : Bool × St :=
  let σ₁ := applyOp (Op.delChecklistItemsByChecklist clid) σ
  (σ₁.checklists.any (fun cl => cl.id == clid), applyOp (Op.delChecklistById clid) σ₁)

/-! ### Store invariants -/

/-- No orphan rows: every child row's foreign key points at an existing
parent row, along the edges the cascade engine maintains. -/
def OrphanFree (σ : St) : Prop :=
  (∀ l ∈ σ.lists, ∃ b ∈ σ.boards, b.id = l.boardId) ∧
  (∀ c ∈ σ.cards, ∃ l ∈ σ.lists, l.id = c.listId) ∧
  (∀ x ∈ σ.labels, ∃ b ∈ σ.boards, b.id = x.boardId) ∧
  (∀ x ∈ σ.boardMembers, ∃ b ∈ σ.boards, b.id = x.boardId) ∧
  (∀ x ∈ σ.cardLabels, ∃ c ∈ σ.cards, c.id = x.cardId) ∧
  (∀ x ∈ σ.cardMembers, ∃ c ∈ σ.cards, c.id = x.cardId) ∧
  (∀ x ∈ σ.comments, ∃ c ∈ σ.cards, c.id = x.cardId) ∧
  (∀ cl ∈ σ.checklists, ∃ c ∈ σ.cards, c.id = cl.cardId) ∧
  (∀ it ∈ σ.checklistItems, ∃ cl ∈ σ.checklists, cl.id = it.checklistId)

instance (σ : St) : Decidable (OrphanFree σ) := by
  unfold OrphanFree; infer_instance

/-- Surrogate keys are unique: no two list, card or checklist rows share an
id (these tables use serial primary keys). -/
def UniqueIds (σ : St) : Prop :=
  σ.lists.Pairwise (fun a b => a.id ≠ b.id) ∧
  σ.cards.Pairwise (fun a b => a.id ≠ b.id) ∧
  σ.checklists.Pairwise (fun a b => a.id ≠ b.id)

instance (σ : St) : Decidable (UniqueIds σ) := by
  unfold UniqueIds; infer_instance

/-! ### The access-control decisions of the route handlers -/

/-- `DatabaseStorage.getBoard` restricted to row lookup (the username join
is presentation only). -/
def getBoardRow (σ : St) (bid : Nat) : Option BoardR :=
  σ.boards.find? (fun b => b.id == bid)

/-- `DatabaseStorage.getBoardMember`: the BoardMember row for (board, user),
if any. -/
def getBoardMemberRow (σ : St) (bid uid : Nat) : Option BoardMemberR :=
  σ.boardMembers.find? (fun bm => bm.boardId == bid && bm.userId == uid)

/-- JavaScript's `String.toLowerCase()` as used on role strings (ASCII
case folding, applied character by character). -/
def toLowerStr (s : String) : String := ⟨s.data.map Char.toLower⟩

/-- Outcome of the `GET /api/boards/:id` handler. -/
inductive AccessResult where
  | ok
  | denied
  | notFound
deriving DecidableEq, Repr

/-- The access decision of the `GET /api/boards/:id` handler: admins, the
board's owner, and board members may view the board; an anonymous caller may
view it only when it has no owner. -/
def boardAccess (u : Option UserR) (σ : St) (bid : Nat) : AccessResult :=
  match getBoardRow σ bid with
  | none => .notFound
  | some b =>
    match u with
    | some user =>
      if user.role != "" && toLowerStr user.role == "admin" then .ok
      else if b.userId == some user.id then .ok
      else
        match getBoardMemberRow σ bid user.id with
        | some _ => .ok
        | none => .denied
    | none => if b.userId != none then .denied else .ok

/-- `DatabaseStorage.getBoardsUserCanAccess`: boards the user owns, then
boards where the user has a BoardMember row, de-duplicated by board id via
insertion into a map keyed by id (owned boards first). -/
def getBoardsUserCanAccessM (σ : St) (uid : Nat) : List BoardR :=
  let ownedBoards := σ.boards.filter (fun b => b.userId == some uid)
  let memberBoards :=
    σ.boards.filter (fun b => σ.boardMembers.any (fun bm => bm.boardId == b.id && bm.userId == uid))
  memberBoards.foldl
    (fun acc b => if acc.any (fun b₂ => b₂.id == b.id) then acc else acc ++ [b])
    ownedBoards

/-- The `GET /api/boards` handler: anonymous callers get `getBoards()` (all
boards), admins get all boards, other users get `getBoardsUserCanAccess`. -/
def boardsVisibleTo (u : Option UserR) (σ : St) : List BoardR :=
  match u with
  | none => σ.boards
  | some user =>
    if user.role != "" && toLowerStr user.role == "admin" then σ.boards
    else getBoardsUserCanAccessM σ user.id

/-- `DatabaseStorage.getBoardMembers`: the board's BoardMember rows joined
with user rows; each returned user carries `boardRole`, the `role` of their
BoardMember row, defaulting to `"viewer"` when no row matches. -/
def getBoardMembersM (σ : St) (bid : Nat) : List (UserR × String) :=
  let bms := σ.boardMembers.filter (fun bm => bm.boardId == bid)
  if bms.isEmpty then []
  else
    let userIds := bms.map (fun bm => bm.userId)
    let members := σ.users.filter (fun us => userIds.contains us.id)
    members.map (fun us =>
      (us, match bms.find? (fun bm => bm.userId == us.id) with
           | some bm => bm.role
           | none => "viewer"))

/-- `DatabaseStorage.removeMemberFromBoard`: delete the (board, user)
BoardMember rows, reporting whether any row was removed. -/
def removeMemberFromBoardM (σ : St) (bid uid : Nat) : Bool × St :=
  let deleted := σ.boardMembers.filter (fun bm => bm.boardId == bid && bm.userId == uid)
  (!deleted.isEmpty,
   { σ with boardMembers := σ.boardMembers.filter (fun bm => !(bm.boardId == bid && bm.userId == uid)) })

/-- Outcome of the `DELETE /api/boards/:boardId/members/:userId` handler. -/
inductive RemoveMemberResult where
  | notFound
  | denied
  | memberMissing
  | removed
deriving DecidableEq, Repr

/-- The `DELETE /api/boards/:boardId/members/:userId` handler: the board
must exist; the caller must be the board's owner, an admin, or the removed
user themselves; then the BoardMember row is removed. -/
def removeMemberHandler (u : Option UserR) (σ : St) (bid uid : Nat) : RemoveMemberResult × St :=
  match getBoardRow σ bid with
  | none => (.notFound, σ)
  | some b =>
    match u with
    | none => (.denied, σ)
    | some user =>
      if b.userId == some user.id || toLowerStr user.role == "admin" || user.id == uid then
        let r := removeMemberFromBoardM σ bid uid
        if r.1 then (.removed, r.2) else (.memberMissing, r.2)
      else (.denied, σ)

/-- `DatabaseStorage.deleteUser`: if the user row exists, delete the user's
board-member rows, card-member rows and comments, then the user row,
reporting whether it was removed. -/
def deleteUserStoreM (σ : St) (uid : Nat) : Bool × St :=
  match σ.users.find? (fun us => us.id == uid) with
  | none => (false, σ)
  | some _ =>
    let σ₁ := { σ with boardMembers := σ.boardMembers.filter (fun bm => !(bm.userId == uid)) }
    let σ₂ := { σ₁ with cardMembers := σ₁.cardMembers.filter (fun cm => !(cm.userId == uid)) }
    let σ₃ := { σ₂ with comments := σ₂.comments.filter (fun c => !(c.userId == some uid)) }
    let removed := σ₃.users.filter (fun us => us.id == uid)
    (!removed.isEmpty, { σ₃ with users := σ₃.users.filter (fun us => !(us.id == uid)) })

/-- Outcome of the `DELETE /api/users/:id` handler. -/
inductive DeleteUserResult where
  | denied
  | selfRejected
  | notFound
  | deleted
deriving DecidableEq, Repr

/-- The `DELETE /api/users/:id` handler: only admins may delete users, and
self-deletion is rejected before the storage call. -/
def deleteUserHandler (u : Option UserR) (σ : St) (tid : Nat) : DeleteUserResult × St :=
  match u with
  | none => (.denied, σ)
  | some user =>
    if toLowerStr user.role != "admin" then (.denied, σ)
    else if user.id == tid then (.selfRejected, σ)
    else
      let r := deleteUserStoreM σ tid
      if r.1 then (.deleted, r.2) else (.notFound, r.2)

/-! ### Orphan-freeness preservation machinery -/

/-- The store states visited while a sequence of delete statements runs,
including the initial and final states. -/
def statesFrom (σ : St) : List Op → List St
  | [] => [σ]
  | o :: ops => σ :: statesFrom (applyOp o σ) ops

/-- Every store state visited while the statements run is orphan-free. -/
def CascadeSafe (σ : St) (ops : List Op) : Prop :=
  ∀ τ ∈ statesFrom σ ops, OrphanFree τ

/-- Ops that delete only leaf rows (join tables, comments, checklist items,
labels, board members). -/
def ChildOnly : Op → Prop
  | .delCardLabelsByCard _ => True
  | .delCardMembersByCard _ => True
  | .delCommentsByCard _ => True
  | .delChecklistItemsByChecklist _ => True
  | .delLabelsByBoard _ => True
  | .delBoardMembersByBoard _ => True
  | _ => False

/-- No child rows of card `cid` remain. -/
def NoChildrenOfCard (σ : St) (cid : Nat) : Prop :=
  (∀ x ∈ σ.cardLabels, x.cardId ≠ cid) ∧ (∀ x ∈ σ.cardMembers, x.cardId ≠ cid) ∧
  (∀ x ∈ σ.comments, x.cardId ≠ cid) ∧ (∀ cl ∈ σ.checklists, cl.cardId ≠ cid)

/-- No card rows of list `lid` remain. -/
def NoCardsOfList (σ : St) (lid : Nat) : Prop :=
  ∀ c ∈ σ.cards, c.listId ≠ lid

/-! ### Completeness: which delete statements a cascade is guaranteed to issue -/

/-- All delete statements that remove the descendants of card `cid` (the
checklist-item deletes covering every checklist of the card present in
`σbase`) appear in `ops`. -/
def CardOpsIn (ops : List Op) (σbase : St) (cid : Nat) : Prop :=
  Op.delCardLabelsByCard cid ∈ ops ∧ Op.delCardMembersByCard cid ∈ ops ∧
  Op.delCommentsByCard cid ∈ ops ∧ Op.delChecklistsByCard cid ∈ ops ∧
  ∀ cl ∈ σbase.checklists, cl.cardId = cid → Op.delChecklistItemsByChecklist cl.id ∈ ops

/-! ### Failure semantics: each cascade body runs inside one try/catch

A store error while the k-th delete statement runs is modelled by an oracle
`fails : Nat → Bool`.  The catch block returns `false` with whatever the
store holds at that point — nothing is rolled back. -/

/-- Run delete statements left to right, numbering them from `k`; a failing
statement aborts with the state reached so far. -/
def runE (fails : Nat → Bool) : List Op → Nat → St → Bool × St
  | [], _, σ => (true, σ)
  | o :: rest, k, σ =>
    if fails k then (false, σ) else runE fails rest (k + 1) (applyOp o σ)

/-- The common try/catch shape of the four cascade methods: run the cleanup
statements, then the final delete (whose `returning` drives the result). -/
def finishE (fails : Nat → Bool) (A : List Op) (fin : Op) (q : St → Bool) (σ : St) : Bool × St :=
  let r := runE fails A 0 σ
  if r.1 then
    if fails A.length then (false, r.2)
    else (q r.2, applyOp fin r.2)
  else (false, r.2)

/-- `deleteCard` with store errors injected by `fails`. -/
def deleteCardE (fails : Nat → Bool) (σ : St) (cid : Nat) : Bool × St :=
  finishE fails (cardCleanupOps σ cid) (Op.delCardById cid)
    (fun τ => τ.cards.any (fun c => c.id == cid)) σ

/-- `deleteList` with store errors injected by `fails`. -/
def deleteListE (fails : Nat → Bool) (σ : St) (lid : Nat) : Bool × St :=
  finishE fails (listCleanupOps σ lid) (Op.delListById lid)
    (fun τ => τ.lists.any (fun l => l.id == lid)) σ

/-- `deleteBoard` with store errors injected by `fails`. -/
def deleteBoardE (fails : Nat → Bool) (σ : St) (bid : Nat) : Bool × St :=
  finishE fails (boardCleanupOps σ bid) (Op.delBoardById bid)
    (fun τ => τ.boards.any (fun b => b.id == bid)) σ

/-- `deleteChecklist` with store errors injected by `fails`. -/
def deleteChecklistE (fails : Nat → Bool) (σ : St) (clid : Nat) : Bool × St :=
  finishE fails [Op.delChecklistItemsByChecklist clid] (Op.delChecklistById clid)
    (fun τ => τ.checklists.any (fun cl => cl.id == clid)) σ

/-! ### Claim statements and concrete instances -/

/-- What C1 asserts of `deleteBoard`: the return value reports board-row
existence, a retry returns false, and no row that referenced the board
directly or transitively (through the lists/cards/checklists present
before the call) remains. -/
def C1Post (σ : St) (bid : Nat) : Prop :=
  ((deleteBoard σ bid).1 = true ↔ ∃ b ∈ σ.boards, b.id = bid) ∧
  (deleteBoard (deleteBoard σ bid).2 bid).1 = false ∧
  ((∀ l ∈ (deleteBoard σ bid).2.lists, l.boardId ≠ bid) ∧
   (∀ x ∈ (deleteBoard σ bid).2.labels, x.boardId ≠ bid) ∧
   (∀ x ∈ (deleteBoard σ bid).2.boardMembers, x.boardId ≠ bid) ∧
   (∀ c ∈ (deleteBoard σ bid).2.cards, ∀ l ∈ σ.lists, l.boardId = bid → c.listId ≠ l.id) ∧
   (∀ x ∈ (deleteBoard σ bid).2.cardLabels, ∀ c ∈ σ.cards, ∀ l ∈ σ.lists,
     l.boardId = bid → c.listId = l.id → x.cardId ≠ c.id) ∧
   (∀ x ∈ (deleteBoard σ bid).2.cardMembers, ∀ c ∈ σ.cards, ∀ l ∈ σ.lists,
     l.boardId = bid → c.listId = l.id → x.cardId ≠ c.id) ∧
   (∀ x ∈ (deleteBoard σ bid).2.comments, ∀ c ∈ σ.cards, ∀ l ∈ σ.lists,
     l.boardId = bid → c.listId = l.id → x.cardId ≠ c.id) ∧
   (∀ cl ∈ (deleteBoard σ bid).2.checklists, ∀ c ∈ σ.cards, ∀ l ∈ σ.lists,
     l.boardId = bid → c.listId = l.id → cl.cardId ≠ c.id) ∧
   (∀ it ∈ (deleteBoard σ bid).2.checklistItems, ∀ cl ∈ σ.checklists, ∀ c ∈ σ.cards,
     ∀ l ∈ σ.lists, l.boardId = bid → c.listId = l.id → cl.cardId = c.id →
     it.checklistId ≠ cl.id))

/-- What C5 asserts: every intermediate store state of each of the four
cascades is orphan-free. -/
def C5Post (σ : St) : Prop :=
  (∀ bid, CascadeSafe σ (deleteBoardTrace σ bid)) ∧
  (∀ lid, CascadeSafe σ (deleteListTrace σ lid)) ∧
  (∀ cid, CascadeSafe σ (deleteCardTrace σ cid)) ∧
  (∀ clid, CascadeSafe σ (deleteChecklistTrace clid))

/-- What C6 asserts about a store error at step `j`: the cascade catches
it, returns `false`, and keeps exactly the deletions issued before step `j`
(no rollback). -/
def C6Post (σ : St) (fails : Nat → Bool) (j : Nat) : Prop :=
  (∀ bid, j < (deleteBoardTrace σ bid).length →
    deleteBoardE fails σ bid = (false, runOps σ ((deleteBoardTrace σ bid).take j))) ∧
  (∀ lid, j < (deleteListTrace σ lid).length →
    deleteListE fails σ lid = (false, runOps σ ((deleteListTrace σ lid).take j))) ∧
  (∀ cid, j < (deleteCardTrace σ cid).length →
    deleteCardE fails σ cid = (false, runOps σ ((deleteCardTrace σ cid).take j))) ∧
  (∀ clid, j < (deleteChecklistTrace clid).length →
    deleteChecklistE fails σ clid = (false, runOps σ ((deleteChecklistTrace clid).take j)))

/-- What C6 asserts about a missing target row: with no store error, each
cascade returns a plain `false` and the store is unchanged. -/
def C6Missing (σ : St) : Prop :=
  (∀ bid (g : Nat → Bool), (∀ i, i < (deleteBoardTrace σ bid).length → g i = false) →
    (∀ b ∈ σ.boards, b.id ≠ bid) → deleteBoardE g σ bid = (false, σ)) ∧
  (∀ lid (g : Nat → Bool), (∀ i, i < (deleteListTrace σ lid).length → g i = false) →
    (∀ l ∈ σ.lists, l.id ≠ lid) → deleteListE g σ lid = (false, σ)) ∧
  (∀ cid (g : Nat → Bool), (∀ i, i < (deleteCardTrace σ cid).length → g i = false) →
    (∀ c ∈ σ.cards, c.id ≠ cid) → deleteCardE g σ cid = (false, σ)) ∧
  (∀ clid (g : Nat → Bool), (∀ i, i < (deleteChecklistTrace clid).length → g i = false) →
    (∀ cl ∈ σ.checklists, cl.id ≠ clid) → deleteChecklistE g σ clid = (false, σ))

/-- What C10 asserts: `deleteList lid` and `deleteCard cid` leave every row
outside the deleted subtree in place. -/
def C10Post (σ : St) (lid cid : Nat) : Prop :=
  (((deleteList σ lid).2.boards = σ.boards) ∧
   ((deleteList σ lid).2.labels = σ.labels) ∧
   ((deleteList σ lid).2.boardMembers = σ.boardMembers) ∧
   ((deleteList σ lid).2.users = σ.users) ∧
   (∀ l ∈ σ.lists, l.id ≠ lid → l ∈ (deleteList σ lid).2.lists) ∧
   (∀ c ∈ σ.cards, c.listId ≠ lid → c ∈ (deleteList σ lid).2.cards) ∧
   (∀ x ∈ σ.cardLabels, ∀ c₀ ∈ σ.cards, c₀.id = x.cardId → c₀.listId ≠ lid →
     x ∈ (deleteList σ lid).2.cardLabels) ∧
   (∀ x ∈ σ.cardMembers, ∀ c₀ ∈ σ.cards, c₀.id = x.cardId → c₀.listId ≠ lid →
     x ∈ (deleteList σ lid).2.cardMembers) ∧
   (∀ x ∈ σ.comments, ∀ c₀ ∈ σ.cards, c₀.id = x.cardId → c₀.listId ≠ lid →
     x ∈ (deleteList σ lid).2.comments) ∧
   (∀ cl ∈ σ.checklists, ∀ c₀ ∈ σ.cards, c₀.id = cl.cardId → c₀.listId ≠ lid →
     cl ∈ (deleteList σ lid).2.checklists) ∧
   (∀ it ∈ σ.checklistItems, ∀ cl₀ ∈ σ.checklists, cl₀.id = it.checklistId →
     ∀ c₀ ∈ σ.cards, c₀.id = cl₀.cardId → c₀.listId ≠ lid →
     it ∈ (deleteList σ lid).2.checklistItems)) ∧
  (((deleteCard σ cid).2.boards = σ.boards) ∧
   ((deleteCard σ cid).2.lists = σ.lists) ∧
   ((deleteCard σ cid).2.labels = σ.labels) ∧
   ((deleteCard σ cid).2.boardMembers = σ.boardMembers) ∧
   ((deleteCard σ cid).2.users = σ.users) ∧
   (∀ c ∈ σ.cards, c.id ≠ cid → c ∈ (deleteCard σ cid).2.cards) ∧
   (∀ x ∈ σ.cardLabels, x.cardId ≠ cid → x ∈ (deleteCard σ cid).2.cardLabels) ∧
   (∀ x ∈ σ.cardMembers, x.cardId ≠ cid → x ∈ (deleteCard σ cid).2.cardMembers) ∧
   (∀ x ∈ σ.comments, x.cardId ≠ cid → x ∈ (deleteCard σ cid).2.comments) ∧
   (∀ cl ∈ σ.checklists, cl.cardId ≠ cid → cl ∈ (deleteCard σ cid).2.checklists) ∧
   (∀ it ∈ σ.checklistItems, ∀ cl₀ ∈ σ.checklists, cl₀.id = it.checklistId →
     cl₀.cardId ≠ cid → it ∈ (deleteCard σ cid).2.checklistItems))

/-- A small populated store: board 1 (owner user 2) has lists 1 and 2,
cards 1 and 2, label 1, a comment, a checklist with two items, a card
member and a board member; board 2 is ownerless with list 3, card 3,
label 2, a comment and a checklist with one item. -/
def σex : St :=
  { users := [⟨1, "admin"⟩, ⟨2, "user"⟩]
    boards := [⟨1, some 2⟩, ⟨2, none⟩]
    lists := [⟨1, 1⟩, ⟨2, 1⟩, ⟨3, 2⟩]
    cards := [⟨1, 1⟩, ⟨2, 1⟩, ⟨3, 3⟩]
    labels := [⟨1, 1⟩, ⟨2, 2⟩]
    cardLabels := [⟨1, 1⟩, ⟨3, 2⟩]
    cardMembers := [⟨1, 2⟩]
    comments := [⟨1, 1, some 2⟩, ⟨2, 3, none⟩]
    checklists := [⟨1, 1⟩, ⟨2, 3⟩]
    checklistItems := [⟨1, 1⟩, ⟨2, 1⟩, ⟨3, 2⟩]
    boardMembers := [⟨1, 1, "editor"⟩] }

/-- A store whose only board is owned by user 1 (nothing else), exercising
the anonymous board listing. -/
def σanon : St :=
  { users := [⟨1, "user"⟩]
    boards := [⟨1, some 1⟩]
    lists := []
    cards := []
    labels := []
    cardLabels := []
    cardMembers := []
    comments := []
    checklists := []
    checklistItems := []
    boardMembers := [] }

/-- A store where board 1's creator (user 10) also has a BoardMember row
with role `"editor"`. -/
def σcreator : St :=
  { users := [⟨10, "user"⟩]
    boards := [⟨1, some 10⟩]
    lists := []
    cards := []
    labels := []
    cardLabels := []
    cardMembers := []
    comments := []
    checklists := []
    checklistItems := []
    boardMembers := [⟨1, 10, "editor"⟩] }

/-- An error oracle that fails exactly the second store statement. -/
def failsEx : Nat → Bool := fun i => i == 1


@[simp] theorem runOps_nil (σ : St) : runOps σ [] = σ := rfl

@[simp] theorem runOps_cons (σ : St) (o : Op) (ops : List Op) :
    runOps σ (o :: ops) = runOps (applyOp o σ) ops := rfl

theorem runOps_append (σ : St) (l₁ l₂ : List Op) :
    runOps σ (l₁ ++ l₂) = runOps (runOps σ l₁) l₂ :=
  List.foldl_append _ _ _ _

@[simp] theorem users_applyOp (o : Op) (σ : St) : (applyOp o σ).users = σ.users := rfl

theorem users_runOps (σ : St) (ops : List Op) : (runOps σ ops).users = σ.users := by
  induction ops generalizing σ with
  | nil => rfl
  | cons o ops ih => simp [ih]

theorem mem_applyOp_boards {o : Op} {σ : St} {x : BoardR} :
    x ∈ (applyOp o σ).boards ↔ x ∈ σ.boards ∧ hitsBoard o x = false := by
  simp [applyOp, List.mem_filter]

theorem mem_applyOp_lists {o : Op} {σ : St} {x : ListR} :
    x ∈ (applyOp o σ).lists ↔ x ∈ σ.lists ∧ hitsList o x = false := by
  simp [applyOp, List.mem_filter]

theorem mem_applyOp_cards {o : Op} {σ : St} {x : CardR} :
    x ∈ (applyOp o σ).cards ↔ x ∈ σ.cards ∧ hitsCard o x = false := by
  simp [applyOp, List.mem_filter]

theorem mem_applyOp_labels {o : Op} {σ : St} {x : LabelR} :
    x ∈ (applyOp o σ).labels ↔ x ∈ σ.labels ∧ hitsLabel o x = false := by
  simp [applyOp, List.mem_filter]

theorem mem_applyOp_cardLabels {o : Op} {σ : St} {x : CardLabelR} :
    x ∈ (applyOp o σ).cardLabels ↔ x ∈ σ.cardLabels ∧ hitsCardLabel o x = false := by
  simp [applyOp, List.mem_filter]

theorem mem_applyOp_cardMembers {o : Op} {σ : St} {x : CardMemberR} :
    x ∈ (applyOp o σ).cardMembers ↔ x ∈ σ.cardMembers ∧ hitsCardMember o x = false := by
  simp [applyOp, List.mem_filter]

theorem mem_applyOp_comments {o : Op} {σ : St} {x : CommentR} :
    x ∈ (applyOp o σ).comments ↔ x ∈ σ.comments ∧ hitsComment o x = false := by
  simp [applyOp, List.mem_filter]

theorem mem_applyOp_checklists {o : Op} {σ : St} {x : ChecklistR} :
    x ∈ (applyOp o σ).checklists ↔ x ∈ σ.checklists ∧ hitsChecklist o x = false := by
  simp [applyOp, List.mem_filter]

theorem mem_applyOp_checklistItems {o : Op} {σ : St} {x : ChecklistItemR} :
    x ∈ (applyOp o σ).checklistItems ↔ x ∈ σ.checklistItems ∧ hitsChecklistItem o x = false := by
  simp [applyOp, List.mem_filter]

theorem mem_applyOp_boardMembers {o : Op} {σ : St} {x : BoardMemberR} :
    x ∈ (applyOp o σ).boardMembers ↔ x ∈ σ.boardMembers ∧ hitsBoardMember o x = false := by
  simp [applyOp, List.mem_filter]

theorem mem_runOps_boards {ops : List Op} {σ : St} {x : BoardR} :
    x ∈ (runOps σ ops).boards ↔ x ∈ σ.boards ∧ ∀ o ∈ ops, hitsBoard o x = false := by
  induction ops generalizing σ with
  | nil => simp
  | cons o ops ih => simp [ih, mem_applyOp_boards]; tauto

theorem mem_runOps_lists {ops : List Op} {σ : St} {x : ListR} :
    x ∈ (runOps σ ops).lists ↔ x ∈ σ.lists ∧ ∀ o ∈ ops, hitsList o x = false := by
  induction ops generalizing σ with
  | nil => simp
  | cons o ops ih => simp [ih, mem_applyOp_lists]; tauto

theorem mem_runOps_cards {ops : List Op} {σ : St} {x : CardR} :
    x ∈ (runOps σ ops).cards ↔ x ∈ σ.cards ∧ ∀ o ∈ ops, hitsCard o x = false := by
  induction ops generalizing σ with
  | nil => simp
  | cons o ops ih => simp [ih, mem_applyOp_cards]; tauto

theorem mem_runOps_labels {ops : List Op} {σ : St} {x : LabelR} :
    x ∈ (runOps σ ops).labels ↔ x ∈ σ.labels ∧ ∀ o ∈ ops, hitsLabel o x = false := by
  induction ops generalizing σ with
  | nil => simp
  | cons o ops ih => simp [ih, mem_applyOp_labels]; tauto

theorem mem_runOps_cardLabels {ops : List Op} {σ : St} {x : CardLabelR} :
    x ∈ (runOps σ ops).cardLabels ↔ x ∈ σ.cardLabels ∧ ∀ o ∈ ops, hitsCardLabel o x = false := by
  induction ops generalizing σ with
  | nil => simp
  | cons o ops ih => simp [ih, mem_applyOp_cardLabels]; tauto

theorem mem_runOps_cardMembers {ops : List Op} {σ : St} {x : CardMemberR} :
    x ∈ (runOps σ ops).cardMembers ↔ x ∈ σ.cardMembers ∧ ∀ o ∈ ops, hitsCardMember o x = false := by
  induction ops generalizing σ with
  | nil => simp
  | cons o ops ih => simp [ih, mem_applyOp_cardMembers]; tauto

theorem mem_runOps_comments {ops : List Op} {σ : St} {x : CommentR} :
    x ∈ (runOps σ ops).comments ↔ x ∈ σ.comments ∧ ∀ o ∈ ops, hitsComment o x = false := by
  induction ops generalizing σ with
  | nil => simp
  | cons o ops ih => simp [ih, mem_applyOp_comments]; tauto

theorem mem_runOps_checklists {ops : List Op} {σ : St} {x : ChecklistR} :
    x ∈ (runOps σ ops).checklists ↔ x ∈ σ.checklists ∧ ∀ o ∈ ops, hitsChecklist o x = false := by
  induction ops generalizing σ with
  | nil => simp
  | cons o ops ih => simp [ih, mem_applyOp_checklists]; tauto

theorem mem_runOps_checklistItems {ops : List Op} {σ : St} {x : ChecklistItemR} :
    x ∈ (runOps σ ops).checklistItems ↔
      x ∈ σ.checklistItems ∧ ∀ o ∈ ops, hitsChecklistItem o x = false := by
  induction ops generalizing σ with
  | nil => simp
  | cons o ops ih => simp [ih, mem_applyOp_checklistItems]; tauto

theorem mem_runOps_boardMembers {ops : List Op} {σ : St} {x : BoardMemberR} :
    x ∈ (runOps σ ops).boardMembers ↔
      x ∈ σ.boardMembers ∧ ∀ o ∈ ops, hitsBoardMember o x = false := by
  induction ops generalizing σ with
  | nil => simp
  | cons o ops ih => simp [ih, mem_applyOp_boardMembers]; tauto

theorem cascadeSafe_nil {σ : St} (h : OrphanFree σ) : CascadeSafe σ [] := by
  intro τ hτ
  simp [statesFrom] at hτ
  exact hτ ▸ h

theorem cascadeSafe_head {σ : St} {ops : List Op} (h : CascadeSafe σ ops) : OrphanFree σ := by
  apply h
  cases ops <;> simp [statesFrom]

theorem cascadeSafe_cons {σ : St} {o : Op} {ops : List Op}
    (hσ : OrphanFree σ) (h : CascadeSafe (applyOp o σ) ops) : CascadeSafe σ (o :: ops) := by
  intro τ hτ
  simp only [statesFrom, List.mem_cons] at hτ
  rcases hτ with rfl | hτ
  · exact hσ
  · exact h τ hτ

theorem cascadeSafe_append {σ : St} {l₁ l₂ : List Op}
    (h₁ : CascadeSafe σ l₁) (h₂ : CascadeSafe (runOps σ l₁) l₂) :
    CascadeSafe σ (l₁ ++ l₂) := by
  induction l₁ generalizing σ with
  | nil => exact h₂
  | cons o rest ih =>
    refine cascadeSafe_cons (cascadeSafe_head h₁) (ih ?_ h₂)
    intro τ hτ
    exact h₁ τ (by simp [statesFrom, hτ])

theorem runOps_mem_statesFrom (σ : St) (ops : List Op) :
    runOps σ ops ∈ statesFrom σ ops := by
  induction ops generalizing σ with
  | nil => simp [statesFrom]
  | cons o rest ih => simpa [statesFrom] using Or.inr (ih (applyOp o σ))

theorem cascadeSafe_last {σ : St} {ops : List Op} (h : CascadeSafe σ ops) :
    OrphanFree (runOps σ ops) :=
  h _ (runOps_mem_statesFrom σ ops)

/-- Master preservation lemma: one delete statement keeps the store
orphan-free provided every surviving child row still has a surviving
parent. -/
theorem OrphanFree_applyOp {o : Op} {σ : St}
    (hL : ∀ l ∈ σ.lists, hitsList o l = false →
      ∃ b ∈ σ.boards, b.id = l.boardId ∧ hitsBoard o b = false)
    (hC : ∀ c ∈ σ.cards, hitsCard o c = false →
      ∃ l ∈ σ.lists, l.id = c.listId ∧ hitsList o l = false)
    (hLab : ∀ x ∈ σ.labels, hitsLabel o x = false →
      ∃ b ∈ σ.boards, b.id = x.boardId ∧ hitsBoard o b = false)
    (hBM : ∀ x ∈ σ.boardMembers, hitsBoardMember o x = false →
      ∃ b ∈ σ.boards, b.id = x.boardId ∧ hitsBoard o b = false)
    (hCL : ∀ x ∈ σ.cardLabels, hitsCardLabel o x = false →
      ∃ c ∈ σ.cards, c.id = x.cardId ∧ hitsCard o c = false)
    (hCM : ∀ x ∈ σ.cardMembers, hitsCardMember o x = false →
      ∃ c ∈ σ.cards, c.id = x.cardId ∧ hitsCard o c = false)
    (hCom : ∀ x ∈ σ.comments, hitsComment o x = false →
      ∃ c ∈ σ.cards, c.id = x.cardId ∧ hitsCard o c = false)
    (hChk : ∀ cl ∈ σ.checklists, hitsChecklist o cl = false →
      ∃ c ∈ σ.cards, c.id = cl.cardId ∧ hitsCard o c = false)
    (hIt : ∀ it ∈ σ.checklistItems, hitsChecklistItem o it = false →
      ∃ cl ∈ σ.checklists, cl.id = it.checklistId ∧ hitsChecklist o cl = false) :
    OrphanFree (applyOp o σ) := by
  refine ⟨?_, ?_, ?_, ?_, ?_, ?_, ?_, ?_, ?_⟩
  · intro l hl
    rw [mem_applyOp_lists] at hl
    obtain ⟨b, hb, hid, hsurv⟩ := hL l hl.1 hl.2
    exact ⟨b, mem_applyOp_boards.mpr ⟨hb, hsurv⟩, hid⟩
  · intro c hc
    rw [mem_applyOp_cards] at hc
    obtain ⟨l, hlm, hid, hsurv⟩ := hC c hc.1 hc.2
    exact ⟨l, mem_applyOp_lists.mpr ⟨hlm, hsurv⟩, hid⟩
  · intro x hx
    rw [mem_applyOp_labels] at hx
    obtain ⟨b, hb, hid, hsurv⟩ := hLab x hx.1 hx.2
    exact ⟨b, mem_applyOp_boards.mpr ⟨hb, hsurv⟩, hid⟩
  · intro x hx
    rw [mem_applyOp_boardMembers] at hx
    obtain ⟨b, hb, hid, hsurv⟩ := hBM x hx.1 hx.2
    exact ⟨b, mem_applyOp_boards.mpr ⟨hb, hsurv⟩, hid⟩
  · intro x hx
    rw [mem_applyOp_cardLabels] at hx
    obtain ⟨c, hcm, hid, hsurv⟩ := hCL x hx.1 hx.2
    exact ⟨c, mem_applyOp_cards.mpr ⟨hcm, hsurv⟩, hid⟩
  · intro x hx
    rw [mem_applyOp_cardMembers] at hx
    obtain ⟨c, hcm, hid, hsurv⟩ := hCM x hx.1 hx.2
    exact ⟨c, mem_applyOp_cards.mpr ⟨hcm, hsurv⟩, hid⟩
  · intro x hx
    rw [mem_applyOp_comments] at hx
    obtain ⟨c, hcm, hid, hsurv⟩ := hCom x hx.1 hx.2
    exact ⟨c, mem_applyOp_cards.mpr ⟨hcm, hsurv⟩, hid⟩
  · intro cl hcl
    rw [mem_applyOp_checklists] at hcl
    obtain ⟨c, hcm, hid, hsurv⟩ := hChk cl hcl.1 hcl.2
    exact ⟨c, mem_applyOp_cards.mpr ⟨hcm, hsurv⟩, hid⟩
  · intro it hit
    rw [mem_applyOp_checklistItems] at hit
    obtain ⟨cl, hclm, hid, hsurv⟩ := hIt it hit.1 hit.2
    exact ⟨cl, mem_applyOp_checklists.mpr ⟨hclm, hsurv⟩, hid⟩

/-- Ops that match no board, list, card or checklist row preserve
orphan-freeness unconditionally. -/
theorem OF_applyOp_keep {o : Op} {σ : St}
    (hb : ∀ b, hitsBoard o b = false) (hl : ∀ l, hitsList o l = false)
    (hc : ∀ c, hitsCard o c = false) (hcl : ∀ cl, hitsChecklist o cl = false)
    (h : OrphanFree σ) : OrphanFree (applyOp o σ) := by
  obtain ⟨h₁, h₂, h₃, h₄, h₅, h₆, h₇, h₈, h₉⟩ := h
  refine OrphanFree_applyOp ?_ ?_ ?_ ?_ ?_ ?_ ?_ ?_ ?_
  · intro l hlm _
    obtain ⟨b, hbm, hid⟩ := h₁ l hlm
    exact ⟨b, hbm, hid, hb b⟩
  · intro c hcm _
    obtain ⟨l, hlm, hid⟩ := h₂ c hcm
    exact ⟨l, hlm, hid, hl l⟩
  · intro x hx _
    obtain ⟨b, hbm, hid⟩ := h₃ x hx
    exact ⟨b, hbm, hid, hb b⟩
  · intro x hx _
    obtain ⟨b, hbm, hid⟩ := h₄ x hx
    exact ⟨b, hbm, hid, hb b⟩
  · intro x hx _
    obtain ⟨c, hcm, hid⟩ := h₅ x hx
    exact ⟨c, hcm, hid, hc c⟩
  · intro x hx _
    obtain ⟨c, hcm, hid⟩ := h₆ x hx
    exact ⟨c, hcm, hid, hc c⟩
  · intro x hx _
    obtain ⟨c, hcm, hid⟩ := h₇ x hx
    exact ⟨c, hcm, hid, hc c⟩
  · intro cl hclm _
    obtain ⟨c, hcm, hid⟩ := h₈ cl hclm
    exact ⟨c, hcm, hid, hc c⟩
  · intro it hitm _
    obtain ⟨cl, hclm, hid⟩ := h₉ it hitm
    exact ⟨cl, hclm, hid, hcl cl⟩

theorem OF_applyOp_childOnly {o : Op} {σ : St} (hco : ChildOnly o) (h : OrphanFree σ) :
    OrphanFree (applyOp o σ) := by
  cases o with
  | delCardLabelsByCard cid => exact OF_applyOp_keep (fun _ => rfl) (fun _ => rfl) (fun _ => rfl) (fun _ => rfl) h
  | delCardMembersByCard cid => exact OF_applyOp_keep (fun _ => rfl) (fun _ => rfl) (fun _ => rfl) (fun _ => rfl) h
  | delCommentsByCard cid => exact OF_applyOp_keep (fun _ => rfl) (fun _ => rfl) (fun _ => rfl) (fun _ => rfl) h
  | delChecklistItemsByChecklist clid => exact OF_applyOp_keep (fun _ => rfl) (fun _ => rfl) (fun _ => rfl) (fun _ => rfl) h
  | delLabelsByBoard bid => exact OF_applyOp_keep (fun _ => rfl) (fun _ => rfl) (fun _ => rfl) (fun _ => rfl) h
  | delBoardMembersByBoard bid => exact OF_applyOp_keep (fun _ => rfl) (fun _ => rfl) (fun _ => rfl) (fun _ => rfl) h
  | delChecklistsByCard cid => exact hco.elim
  | delChecklistById clid => exact hco.elim
  | delCardsByList lid => exact hco.elim
  | delCardById cid => exact hco.elim
  | delListsByBoard bid => exact hco.elim
  | delListById lid => exact hco.elim
  | delBoardById bid => exact hco.elim

theorem cascadeSafe_childOnly {σ : St} {ops : List Op}
    (h : OrphanFree σ) (hops : ∀ o ∈ ops, ChildOnly o) : CascadeSafe σ ops := by
  induction ops generalizing σ with
  | nil => exact cascadeSafe_nil h
  | cons o rest ih =>
    exact cascadeSafe_cons h
      (ih (OF_applyOp_childOnly (hops o (by simp)) h) (fun o' ho' => hops o' (by simp [ho'])))

theorem noChildrenOfCard_runOps {σ : St} {cid : Nat} (h : NoChildrenOfCard σ cid)
    (ops : List Op) : NoChildrenOfCard (runOps σ ops) cid := by
  obtain ⟨h₁, h₂, h₃, h₄⟩ := h
  refine ⟨?_, ?_, ?_, ?_⟩
  · intro x hx; exact h₁ x (mem_runOps_cardLabels.mp hx).1
  · intro x hx; exact h₂ x (mem_runOps_cardMembers.mp hx).1
  · intro x hx; exact h₃ x (mem_runOps_comments.mp hx).1
  · intro cl hcl; exact h₄ cl (mem_runOps_checklists.mp hcl).1

theorem noCardsOfList_runOps {σ : St} {lid : Nat} (h : NoCardsOfList σ lid)
    (ops : List Op) : NoCardsOfList (runOps σ ops) lid := by
  intro c hc
  exact h c (mem_runOps_cards.mp hc).1

theorem OF_applyOp_delChecklistsByCard {σ : St} {cid : Nat} (h : OrphanFree σ)
    (hno : ∀ it ∈ σ.checklistItems, ∀ cl ∈ σ.checklists,
      cl.id = it.checklistId → cl.cardId ≠ cid) :
    OrphanFree (applyOp (Op.delChecklistsByCard cid) σ) := by
  obtain ⟨h₁, h₂, h₃, h₄, h₅, h₆, h₇, h₈, h₉⟩ := h
  refine OrphanFree_applyOp ?_ ?_ ?_ ?_ ?_ ?_ ?_ ?_ ?_
  · intro l hlm _
    obtain ⟨b, hbm, hid⟩ := h₁ l hlm
    exact ⟨b, hbm, hid, rfl⟩
  · intro c hcm _
    obtain ⟨l, hlm, hid⟩ := h₂ c hcm
    exact ⟨l, hlm, hid, rfl⟩
  · intro x hx _
    obtain ⟨b, hbm, hid⟩ := h₃ x hx
    exact ⟨b, hbm, hid, rfl⟩
  · intro x hx _
    obtain ⟨b, hbm, hid⟩ := h₄ x hx
    exact ⟨b, hbm, hid, rfl⟩
  · intro x hx _
    obtain ⟨c, hcm, hid⟩ := h₅ x hx
    exact ⟨c, hcm, hid, rfl⟩
  · intro x hx _
    obtain ⟨c, hcm, hid⟩ := h₆ x hx
    exact ⟨c, hcm, hid, rfl⟩
  · intro x hx _
    obtain ⟨c, hcm, hid⟩ := h₇ x hx
    exact ⟨c, hcm, hid, rfl⟩
  · intro cl hclm _
    obtain ⟨c, hcm, hid⟩ := h₈ cl hclm
    exact ⟨c, hcm, hid, rfl⟩
  · intro it hitm _
    obtain ⟨cl, hclm, hid⟩ := h₉ it hitm
    refine ⟨cl, hclm, hid, ?_⟩
    simp [hitsChecklist]
    exact hno it hitm cl hclm hid

theorem OF_applyOp_delChecklistById {σ : St} {clid : Nat} (h : OrphanFree σ)
    (hno : ∀ it ∈ σ.checklistItems, it.checklistId ≠ clid) :
    OrphanFree (applyOp (Op.delChecklistById clid) σ) := by
  obtain ⟨h₁, h₂, h₃, h₄, h₅, h₆, h₇, h₈, h₉⟩ := h
  refine OrphanFree_applyOp ?_ ?_ ?_ ?_ ?_ ?_ ?_ ?_ ?_
  · intro l hlm _
    obtain ⟨b, hbm, hid⟩ := h₁ l hlm
    exact ⟨b, hbm, hid, rfl⟩
  · intro c hcm _
    obtain ⟨l, hlm, hid⟩ := h₂ c hcm
    exact ⟨l, hlm, hid, rfl⟩
  · intro x hx _
    obtain ⟨b, hbm, hid⟩ := h₃ x hx
    exact ⟨b, hbm, hid, rfl⟩
  · intro x hx _
    obtain ⟨b, hbm, hid⟩ := h₄ x hx
    exact ⟨b, hbm, hid, rfl⟩
  · intro x hx _
    obtain ⟨c, hcm, hid⟩ := h₅ x hx
    exact ⟨c, hcm, hid, rfl⟩
  · intro x hx _
    obtain ⟨c, hcm, hid⟩ := h₆ x hx
    exact ⟨c, hcm, hid, rfl⟩
  · intro x hx _
    obtain ⟨c, hcm, hid⟩ := h₇ x hx
    exact ⟨c, hcm, hid, rfl⟩
  · intro cl hclm _
    obtain ⟨c, hcm, hid⟩ := h₈ cl hclm
    exact ⟨c, hcm, hid, rfl⟩
  · intro it hitm _
    obtain ⟨cl, hclm, hid⟩ := h₉ it hitm
    refine ⟨cl, hclm, hid, ?_⟩
    simp [hitsChecklist]
    rw [hid]
    exact fun heq => hno it hitm heq

theorem OF_applyOp_delCardById {σ : St} {cid : Nat} (h : OrphanFree σ)
    (hno : NoChildrenOfCard σ cid) :
    OrphanFree (applyOp (Op.delCardById cid) σ) := by
  obtain ⟨h₁, h₂, h₃, h₄, h₅, h₆, h₇, h₈, h₉⟩ := h
  obtain ⟨n₁, n₂, n₃, n₄⟩ := hno
  refine OrphanFree_applyOp ?_ ?_ ?_ ?_ ?_ ?_ ?_ ?_ ?_
  · intro l hlm _
    obtain ⟨b, hbm, hid⟩ := h₁ l hlm
    exact ⟨b, hbm, hid, rfl⟩
  · intro c hcm _
    obtain ⟨l, hlm, hid⟩ := h₂ c hcm
    exact ⟨l, hlm, hid, rfl⟩
  · intro x hx _
    obtain ⟨b, hbm, hid⟩ := h₃ x hx
    exact ⟨b, hbm, hid, rfl⟩
  · intro x hx _
    obtain ⟨b, hbm, hid⟩ := h₄ x hx
    exact ⟨b, hbm, hid, rfl⟩
  · intro x hx _
    obtain ⟨c, hcm, hid⟩ := h₅ x hx
    refine ⟨c, hcm, hid, ?_⟩
    simp [hitsCard]
    rw [hid]
    exact n₁ x hx
  · intro x hx _
    obtain ⟨c, hcm, hid⟩ := h₆ x hx
    refine ⟨c, hcm, hid, ?_⟩
    simp [hitsCard]
    rw [hid]
    exact n₂ x hx
  · intro x hx _
    obtain ⟨c, hcm, hid⟩ := h₇ x hx
    refine ⟨c, hcm, hid, ?_⟩
    simp [hitsCard]
    rw [hid]
    exact n₃ x hx
  · intro cl hclm _
    obtain ⟨c, hcm, hid⟩ := h₈ cl hclm
    refine ⟨c, hcm, hid, ?_⟩
    simp [hitsCard]
    rw [hid]
    exact n₄ cl hclm
  · intro it hitm _
    obtain ⟨cl, hclm, hid⟩ := h₉ it hitm
    exact ⟨cl, hclm, hid, rfl⟩

theorem OF_applyOp_delCardsByList {σ : St} {lid : Nat} (h : OrphanFree σ)
    (hno : ∀ c ∈ σ.cards, c.listId = lid → NoChildrenOfCard σ c.id) :
    OrphanFree (applyOp (Op.delCardsByList lid) σ) := by
  obtain ⟨h₁, h₂, h₃, h₄, h₅, h₆, h₇, h₈, h₉⟩ := h
  have hch : ∀ (c : CardR), c ∈ σ.cards →
      ((∃ x ∈ σ.cardLabels, x.cardId = c.id) ∨ (∃ x ∈ σ.cardMembers, x.cardId = c.id) ∨
       (∃ x ∈ σ.comments, x.cardId = c.id) ∨ (∃ cl ∈ σ.checklists, cl.cardId = c.id)) →
      hitsCard (Op.delCardsByList lid) c = false := by
    intro c hcm hex
    simp [hitsCard]
    intro heq
    obtain ⟨n₁, n₂, n₃, n₄⟩ := hno c hcm heq
    rcases hex with ⟨x, hx, he⟩ | ⟨x, hx, he⟩ | ⟨x, hx, he⟩ | ⟨cl, hcl, he⟩
    · exact n₁ x hx he
    · exact n₂ x hx he
    · exact n₃ x hx he
    · exact n₄ cl hcl he
  refine OrphanFree_applyOp ?_ ?_ ?_ ?_ ?_ ?_ ?_ ?_ ?_
  · intro l hlm _
    obtain ⟨b, hbm, hid⟩ := h₁ l hlm
    exact ⟨b, hbm, hid, rfl⟩
  · intro c hcm _
    obtain ⟨l, hlm, hid⟩ := h₂ c hcm
    exact ⟨l, hlm, hid, rfl⟩
  · intro x hx _
    obtain ⟨b, hbm, hid⟩ := h₃ x hx
    exact ⟨b, hbm, hid, rfl⟩
  · intro x hx _
    obtain ⟨b, hbm, hid⟩ := h₄ x hx
    exact ⟨b, hbm, hid, rfl⟩
  · intro x hx _
    obtain ⟨c, hcm, hid⟩ := h₅ x hx
    exact ⟨c, hcm, hid, hch c hcm (Or.inl ⟨x, hx, hid.symm ▸ rfl⟩)⟩
  · intro x hx _
    obtain ⟨c, hcm, hid⟩ := h₆ x hx
    exact ⟨c, hcm, hid, hch c hcm (Or.inr (Or.inl ⟨x, hx, hid.symm ▸ rfl⟩))⟩
  · intro x hx _
    obtain ⟨c, hcm, hid⟩ := h₇ x hx
    exact ⟨c, hcm, hid, hch c hcm (Or.inr (Or.inr (Or.inl ⟨x, hx, hid.symm ▸ rfl⟩)))⟩
  · intro cl hclm _
    obtain ⟨c, hcm, hid⟩ := h₈ cl hclm
    exact ⟨c, hcm, hid, hch c hcm (Or.inr (Or.inr (Or.inr ⟨cl, hclm, hid.symm ▸ rfl⟩)))⟩
  · intro it hitm _
    obtain ⟨cl, hclm, hid⟩ := h₉ it hitm
    exact ⟨cl, hclm, hid, rfl⟩

theorem OF_applyOp_delListById {σ : St} {lid : Nat} (h : OrphanFree σ)
    (hno : NoCardsOfList σ lid) :
    OrphanFree (applyOp (Op.delListById lid) σ) := by
  obtain ⟨h₁, h₂, h₃, h₄, h₅, h₆, h₇, h₈, h₉⟩ := h
  refine OrphanFree_applyOp ?_ ?_ ?_ ?_ ?_ ?_ ?_ ?_ ?_
  · intro l hlm _
    obtain ⟨b, hbm, hid⟩ := h₁ l hlm
    exact ⟨b, hbm, hid, rfl⟩
  · intro c hcm _
    obtain ⟨l, hlm, hid⟩ := h₂ c hcm
    refine ⟨l, hlm, hid, ?_⟩
    simp [hitsList]
    rw [hid]
    exact hno c hcm
  · intro x hx _
    obtain ⟨b, hbm, hid⟩ := h₃ x hx
    exact ⟨b, hbm, hid, rfl⟩
  · intro x hx _
    obtain ⟨b, hbm, hid⟩ := h₄ x hx
    exact ⟨b, hbm, hid, rfl⟩
  · intro x hx _
    obtain ⟨c, hcm, hid⟩ := h₅ x hx
    exact ⟨c, hcm, hid, rfl⟩
  · intro x hx _
    obtain ⟨c, hcm, hid⟩ := h₆ x hx
    exact ⟨c, hcm, hid, rfl⟩
  · intro x hx _
    obtain ⟨c, hcm, hid⟩ := h₇ x hx
    exact ⟨c, hcm, hid, rfl⟩
  · intro cl hclm _
    obtain ⟨c, hcm, hid⟩ := h₈ cl hclm
    exact ⟨c, hcm, hid, rfl⟩
  · intro it hitm _
    obtain ⟨cl, hclm, hid⟩ := h₉ it hitm
    exact ⟨cl, hclm, hid, rfl⟩

theorem OF_applyOp_delListsByBoard {σ : St} {bid : Nat} (h : OrphanFree σ)
    (hno : ∀ l ∈ σ.lists, l.boardId = bid → NoCardsOfList σ l.id) :
    OrphanFree (applyOp (Op.delListsByBoard bid) σ) := by
  obtain ⟨h₁, h₂, h₃, h₄, h₅, h₆, h₇, h₈, h₉⟩ := h
  refine OrphanFree_applyOp ?_ ?_ ?_ ?_ ?_ ?_ ?_ ?_ ?_
  · intro l hlm _
    obtain ⟨b, hbm, hid⟩ := h₁ l hlm
    exact ⟨b, hbm, hid, rfl⟩
  · intro c hcm _
    obtain ⟨l, hlm, hid⟩ := h₂ c hcm
    refine ⟨l, hlm, hid, ?_⟩
    simp [hitsList]
    intro heq
    exact hno l hlm heq c hcm hid.symm
  · intro x hx _
    obtain ⟨b, hbm, hid⟩ := h₃ x hx
    exact ⟨b, hbm, hid, rfl⟩
  · intro x hx _
    obtain ⟨b, hbm, hid⟩ := h₄ x hx
    exact ⟨b, hbm, hid, rfl⟩
  · intro x hx _
    obtain ⟨c, hcm, hid⟩ := h₅ x hx
    exact ⟨c, hcm, hid, rfl⟩
  · intro x hx _
    obtain ⟨c, hcm, hid⟩ := h₆ x hx
    exact ⟨c, hcm, hid, rfl⟩
  · intro x hx _
    obtain ⟨c, hcm, hid⟩ := h₇ x hx
    exact ⟨c, hcm, hid, rfl⟩
  · intro cl hclm _
    obtain ⟨c, hcm, hid⟩ := h₈ cl hclm
    exact ⟨c, hcm, hid, rfl⟩
  · intro it hitm _
    obtain ⟨cl, hclm, hid⟩ := h₉ it hitm
    exact ⟨cl, hclm, hid, rfl⟩

theorem OF_applyOp_delBoardById {σ : St} {bid : Nat} (h : OrphanFree σ)
    (hnoL : ∀ l ∈ σ.lists, l.boardId ≠ bid)
    (hnoLab : ∀ x ∈ σ.labels, x.boardId ≠ bid)
    (hnoBM : ∀ x ∈ σ.boardMembers, x.boardId ≠ bid) :
    OrphanFree (applyOp (Op.delBoardById bid) σ) := by
  obtain ⟨h₁, h₂, h₃, h₄, h₅, h₆, h₇, h₈, h₉⟩ := h
  refine OrphanFree_applyOp ?_ ?_ ?_ ?_ ?_ ?_ ?_ ?_ ?_
  · intro l hlm _
    obtain ⟨b, hbm, hid⟩ := h₁ l hlm
    refine ⟨b, hbm, hid, ?_⟩
    simp [hitsBoard]
    rw [hid]
    exact hnoL l hlm
  · intro c hcm _
    obtain ⟨l, hlm, hid⟩ := h₂ c hcm
    exact ⟨l, hlm, hid, rfl⟩
  · intro x hx _
    obtain ⟨b, hbm, hid⟩ := h₃ x hx
    refine ⟨b, hbm, hid, ?_⟩
    simp [hitsBoard]
    rw [hid]
    exact hnoLab x hx
  · intro x hx _
    obtain ⟨b, hbm, hid⟩ := h₄ x hx
    refine ⟨b, hbm, hid, ?_⟩
    simp [hitsBoard]
    rw [hid]
    exact hnoBM x hx
  · intro x hx _
    obtain ⟨c, hcm, hid⟩ := h₅ x hx
    exact ⟨c, hcm, hid, rfl⟩
  · intro x hx _
    obtain ⟨c, hcm, hid⟩ := h₆ x hx
    exact ⟨c, hcm, hid, rfl⟩
  · intro x hx _
    obtain ⟨c, hcm, hid⟩ := h₇ x hx
    exact ⟨c, hcm, hid, rfl⟩
  · intro cl hclm _
    obtain ⟨c, hcm, hid⟩ := h₈ cl hclm
    exact ⟨c, hcm, hid, rfl⟩
  · intro it hitm _
    obtain ⟨cl, hclm, hid⟩ := h₉ it hitm
    exact ⟨cl, hclm, hid, rfl⟩

/-! ### Structure of the cascade traces -/

theorem checklists_applyOp_keep {o : Op} {σ : St} (h : ∀ cl, hitsChecklist o cl = false) :
    (applyOp o σ).checklists = σ.checklists := by
  simp [applyOp, h]

/-- The card cleanup block, with the checklist select evaluated: the first
three deletes do not touch checklists, so the select reads the initial
state's checklist rows of the card. -/
theorem cardCleanupOps_eq (σ : St) (cid : Nat) :
    cardCleanupOps σ cid =
      [Op.delCardLabelsByCard cid, Op.delCardMembersByCard cid, Op.delCommentsByCard cid]
        ++ (σ.checklists.filter (fun cl => cl.cardId == cid)).map
            (fun cl => Op.delChecklistItemsByChecklist cl.id)
        ++ [Op.delChecklistsByCard cid] := by
  have hchk : (runOps σ [Op.delCardLabelsByCard cid, Op.delCardMembersByCard cid,
      Op.delCommentsByCard cid]).checklists = σ.checklists := by
    show (applyOp (Op.delCommentsByCard cid) (applyOp (Op.delCardMembersByCard cid)
      (applyOp (Op.delCardLabelsByCard cid) σ))).checklists = σ.checklists
    rw [checklists_applyOp_keep (o := Op.delCommentsByCard cid) (fun _ => rfl),
      checklists_applyOp_keep (o := Op.delCardMembersByCard cid) (fun _ => rfl),
      checklists_applyOp_keep (o := Op.delCardLabelsByCard cid) (fun _ => rfl)]
  show ([Op.delCardLabelsByCard cid, Op.delCardMembersByCard cid, Op.delCommentsByCard cid]
      ++ ((runOps σ [Op.delCardLabelsByCard cid, Op.delCardMembersByCard cid,
            Op.delCommentsByCard cid]).checklists.filter (fun cl => cl.cardId == cid)).map
          (fun cl => Op.delChecklistItemsByChecklist cl.id)
      ++ [Op.delChecklistsByCard cid]) = _
  rw [hchk]

theorem cardCleanupOps_mem_basic (σ : St) (cid : Nat) :
    Op.delCardLabelsByCard cid ∈ cardCleanupOps σ cid ∧
    Op.delCardMembersByCard cid ∈ cardCleanupOps σ cid ∧
    Op.delCommentsByCard cid ∈ cardCleanupOps σ cid ∧
    Op.delChecklistsByCard cid ∈ cardCleanupOps σ cid := by
  rw [cardCleanupOps_eq]
  refine ⟨?_, ?_, ?_, ?_⟩ <;> simp

theorem cardCleanupOps_mem_item (σ : St) (cid : Nat) {cl : ChecklistR}
    (hcl : cl ∈ σ.checklists) (hc : cl.cardId = cid) :
    Op.delChecklistItemsByChecklist cl.id ∈ cardCleanupOps σ cid := by
  rw [cardCleanupOps_eq]
  simp only [List.mem_append, List.mem_map, List.mem_filter]
  exact Or.inl (Or.inr ⟨cl, ⟨hcl, by simp [hc]⟩, rfl⟩)

theorem cardCleanupOps_shape {σ : St} {cid : Nat} {o : Op} (ho : o ∈ cardCleanupOps σ cid) :
    o = Op.delCardLabelsByCard cid ∨ o = Op.delCardMembersByCard cid ∨
    o = Op.delCommentsByCard cid ∨ o = Op.delChecklistsByCard cid ∨
    ∃ cl ∈ σ.checklists, cl.cardId = cid ∧ o = Op.delChecklistItemsByChecklist cl.id := by
  rw [cardCleanupOps_eq] at ho
  rcases List.mem_append.mp ho with h₁₂ | hlast
  · rcases List.mem_append.mp h₁₂ with hbasic | hmap
    · simp only [List.mem_cons, List.not_mem_nil, or_false] at hbasic
      rcases hbasic with rfl | rfl | rfl
      · exact Or.inl rfl
      · exact Or.inr (Or.inl rfl)
      · exact Or.inr (Or.inr (Or.inl rfl))
    · obtain ⟨cl, hclf, rfl⟩ := List.mem_map.mp hmap
      obtain ⟨hcl, hcid⟩ := List.mem_filter.mp hclf
      exact Or.inr (Or.inr (Or.inr (Or.inr ⟨cl, hcl, by simpa using hcid, rfl⟩)))
  · simp only [List.mem_singleton] at hlast
    exact Or.inr (Or.inr (Or.inr (Or.inl hlast)))

theorem cardsCleanupOps_cons (σ : St) (c : CardR) (rest : List CardR) :
    cardsCleanupOps σ (c :: rest) =
      cardCleanupOps σ c.id
        ++ cardsCleanupOps (runOps σ (cardCleanupOps σ c.id)) rest := rfl

theorem cardsCleanupOps_shape (cs : List CardR) : ∀ (σ : St) {o : Op},
    o ∈ cardsCleanupOps σ cs →
    ∃ c ∈ cs, o = Op.delCardLabelsByCard c.id ∨ o = Op.delCardMembersByCard c.id ∨
      o = Op.delCommentsByCard c.id ∨ o = Op.delChecklistsByCard c.id ∨
      ∃ cl ∈ σ.checklists, cl.cardId = c.id ∧ o = Op.delChecklistItemsByChecklist cl.id := by
  induction cs with
  | nil => intro σ o ho; exact absurd ho (List.not_mem_nil o)
  | cons c rest ih =>
    intro σ o ho
    rw [cardsCleanupOps_cons, List.mem_append] at ho
    rcases ho with ho | ho
    · rcases cardCleanupOps_shape ho with h | h | h | h | ⟨cl, hcl, hcid, rfl⟩
      · exact ⟨c, by simp, Or.inl h⟩
      · exact ⟨c, by simp, Or.inr (Or.inl h)⟩
      · exact ⟨c, by simp, Or.inr (Or.inr (Or.inl h))⟩
      · exact ⟨c, by simp, Or.inr (Or.inr (Or.inr (Or.inl h)))⟩
      · exact ⟨c, by simp, Or.inr (Or.inr (Or.inr (Or.inr ⟨cl, hcl, hcid, rfl⟩)))⟩
    · obtain ⟨c', hc', hor⟩ := ih _ ho
      refine ⟨c', by simp [hc'], ?_⟩
      rcases hor with h | h | h | h | ⟨cl, hcl, hcid, rfl⟩
      · exact Or.inl h
      · exact Or.inr (Or.inl h)
      · exact Or.inr (Or.inr (Or.inl h))
      · exact Or.inr (Or.inr (Or.inr (Or.inl h)))
      · exact Or.inr (Or.inr (Or.inr (Or.inr
          ⟨cl, (mem_runOps_checklists.mp hcl).1, hcid, rfl⟩)))

/-! ### Every intermediate state of a cascade is orphan-free -/

theorem safe_then_delChecklists (σ : St) (cid : Nat) (A : List Op)
    (hA : CascadeSafe σ A)
    (hkill : ∀ cl ∈ σ.checklists, cl.cardId = cid →
      Op.delChecklistItemsByChecklist cl.id ∈ A) :
    CascadeSafe σ (A ++ [Op.delChecklistsByCard cid]) := by
  refine cascadeSafe_append hA ?_
  have hOFA := cascadeSafe_last hA
  have hside : ∀ it ∈ (runOps σ A).checklistItems, ∀ cl ∈ (runOps σ A).checklists,
      cl.id = it.checklistId → cl.cardId ≠ cid := by
    intro it hit cl hcl hid heq
    have hclσ := (mem_runOps_checklists.mp hcl).1
    have hsurv := (mem_runOps_checklistItems.mp hit).2 _ (hkill cl hclσ heq)
    simp only [hitsChecklistItem, beq_eq_false_iff_ne, ne_eq] at hsurv
    exact hsurv hid.symm
  exact cascadeSafe_cons hOFA (cascadeSafe_nil (OF_applyOp_delChecklistsByCard hOFA hside))

theorem cardCleanup_safe (σ : St) (cid : Nat) (h : OrphanFree σ) :
    CascadeSafe σ (cardCleanupOps σ cid) := by
  rw [cardCleanupOps_eq]
  refine safe_then_delChecklists σ cid _ ?_ ?_
  · refine cascadeSafe_childOnly h ?_
    intro o ho
    rcases List.mem_append.mp ho with hbasic | hmap
    · simp only [List.mem_cons, List.not_mem_nil, or_false] at hbasic
      rcases hbasic with rfl | rfl | rfl <;> trivial
    · obtain ⟨cl, _, rfl⟩ := List.mem_map.mp hmap
      trivial
  · intro cl hcl heq
    simp only [List.mem_append, List.mem_map, List.mem_filter]
    exact Or.inr ⟨cl, ⟨hcl, by simp [heq]⟩, rfl⟩

theorem cardCleanup_noChildren (σ : St) (cid : Nat) :
    NoChildrenOfCard (runOps σ (cardCleanupOps σ cid)) cid := by
  obtain ⟨hm₁, hm₂, hm₃, hm₄⟩ := cardCleanupOps_mem_basic σ cid
  refine ⟨?_, ?_, ?_, ?_⟩
  · intro x hx
    have := (mem_runOps_cardLabels.mp hx).2 _ hm₁
    simpa [hitsCardLabel] using this
  · intro x hx
    have := (mem_runOps_cardMembers.mp hx).2 _ hm₂
    simpa [hitsCardMember] using this
  · intro x hx
    have := (mem_runOps_comments.mp hx).2 _ hm₃
    simpa [hitsComment] using this
  · intro cl hcl
    have := (mem_runOps_checklists.mp hcl).2 _ hm₄
    simpa [hitsChecklist] using this

theorem cardsCleanup_safe (cs : List CardR) : ∀ (σ : St), OrphanFree σ →
    CascadeSafe σ (cardsCleanupOps σ cs) := by
  induction cs with
  | nil => intro σ h; exact cascadeSafe_nil h
  | cons c rest ih =>
    intro σ h
    rw [cardsCleanupOps_cons]
    have h₁ := cardCleanup_safe σ c.id h
    exact cascadeSafe_append h₁ (ih _ (cascadeSafe_last h₁))

theorem cardsCleanup_noChildren (cs : List CardR) : ∀ (σ : St), ∀ c ∈ cs,
    NoChildrenOfCard (runOps σ (cardsCleanupOps σ cs)) c.id := by
  induction cs with
  | nil => intro σ c hc; exact absurd hc (List.not_mem_nil c)
  | cons c₀ rest ih =>
    intro σ c hc
    have hsplit : runOps σ (cardsCleanupOps σ (c₀ :: rest))
        = runOps (runOps σ (cardCleanupOps σ c₀.id))
            (cardsCleanupOps (runOps σ (cardCleanupOps σ c₀.id)) rest) := by
      rw [cardsCleanupOps_cons, runOps_append]
    rcases List.mem_cons.mp hc with rfl | hrest
    · rw [hsplit]
      exact noChildrenOfCard_runOps (cardCleanup_noChildren σ c.id) _
    · rw [hsplit]
      exact ih _ c hrest

theorem listCleanupOps_eq (σ : St) (lid : Nat) :
    listCleanupOps σ lid =
      cardsCleanupOps σ (σ.cards.filter (fun c => c.listId == lid))
        ++ [Op.delCardsByList lid] := rfl

theorem listCleanup_safe (σ : St) (lid : Nat) (h : OrphanFree σ) :
    CascadeSafe σ (listCleanupOps σ lid) := by
  rw [listCleanupOps_eq]
  have h₁ := cardsCleanup_safe (σ.cards.filter (fun c => c.listId == lid)) σ h
  refine cascadeSafe_append h₁ ?_
  have hOF₁ := cascadeSafe_last h₁
  have hside : ∀ c ∈ (runOps σ (cardsCleanupOps σ (σ.cards.filter (fun c => c.listId == lid)))).cards,
      c.listId = lid →
      NoChildrenOfCard (runOps σ (cardsCleanupOps σ (σ.cards.filter (fun c => c.listId == lid)))) c.id := by
    intro c hcm heq
    have hcσ : c ∈ σ.cards.filter (fun c => c.listId == lid) :=
      List.mem_filter.mpr ⟨(mem_runOps_cards.mp hcm).1, by simp [heq]⟩
    exact cardsCleanup_noChildren _ σ c hcσ
  exact cascadeSafe_cons hOF₁ (cascadeSafe_nil (OF_applyOp_delCardsByList hOF₁ hside))

theorem listCleanup_noCards (σ : St) (lid : Nat) :
    NoCardsOfList (runOps σ (listCleanupOps σ lid)) lid := by
  intro c hcm
  have hop : Op.delCardsByList lid ∈ listCleanupOps σ lid := by
    rw [listCleanupOps_eq]; simp
  have := (mem_runOps_cards.mp hcm).2 _ hop
  simpa [hitsCard] using this

theorem deleteCardTrace_safe (σ : St) (cid : Nat) (h : OrphanFree σ) :
    CascadeSafe σ (deleteCardTrace σ cid) := by
  have h₁ := cardCleanup_safe σ cid h
  refine cascadeSafe_append h₁ ?_
  have hOF₁ := cascadeSafe_last h₁
  exact cascadeSafe_cons hOF₁
    (cascadeSafe_nil (OF_applyOp_delCardById hOF₁ (cardCleanup_noChildren σ cid)))

theorem deleteListTrace_safe (σ : St) (lid : Nat) (h : OrphanFree σ) :
    CascadeSafe σ (deleteListTrace σ lid) := by
  have h₁ := listCleanup_safe σ lid h
  refine cascadeSafe_append h₁ ?_
  have hOF₁ := cascadeSafe_last h₁
  exact cascadeSafe_cons hOF₁
    (cascadeSafe_nil (OF_applyOp_delListById hOF₁ (listCleanup_noCards σ lid)))

theorem deleteChecklistTrace_safe (σ : St) (clid : Nat) (h : OrphanFree σ) :
    CascadeSafe σ (deleteChecklistTrace clid) := by
  have hOF₁ : OrphanFree (applyOp (Op.delChecklistItemsByChecklist clid) σ) :=
    OF_applyOp_childOnly trivial h
  have hside : ∀ it ∈ (applyOp (Op.delChecklistItemsByChecklist clid) σ).checklistItems,
      it.checklistId ≠ clid := by
    intro it hit
    have := (mem_applyOp_checklistItems.mp hit).2
    simpa [hitsChecklistItem] using this
  exact cascadeSafe_cons h (cascadeSafe_cons hOF₁
    (cascadeSafe_nil (OF_applyOp_delChecklistById hOF₁ hside)))

theorem listsCleanupOps_cons (σ : St) (l : ListR) (rest : List ListR) :
    listsCleanupOps σ (l :: rest) =
      listCleanupOps σ l.id
        ++ listsCleanupOps (runOps σ (listCleanupOps σ l.id)) rest := rfl

theorem listsCleanup_safe (ls : List ListR) : ∀ (σ : St), OrphanFree σ →
    CascadeSafe σ (listsCleanupOps σ ls) := by
  induction ls with
  | nil => intro σ h; exact cascadeSafe_nil h
  | cons l rest ih =>
    intro σ h
    rw [listsCleanupOps_cons]
    have h₁ := listCleanup_safe σ l.id h
    exact cascadeSafe_append h₁ (ih _ (cascadeSafe_last h₁))

theorem listsCleanup_noCards (ls : List ListR) : ∀ (σ : St), ∀ l ∈ ls,
    NoCardsOfList (runOps σ (listsCleanupOps σ ls)) l.id := by
  induction ls with
  | nil => intro σ l hl; exact absurd hl (List.not_mem_nil l)
  | cons l₀ rest ih =>
    intro σ l hl
    have hsplit : runOps σ (listsCleanupOps σ (l₀ :: rest))
        = runOps (runOps σ (listCleanupOps σ l₀.id))
            (listsCleanupOps (runOps σ (listCleanupOps σ l₀.id)) rest) := by
      rw [listsCleanupOps_cons, runOps_append]
    rcases List.mem_cons.mp hl with rfl | hrest
    · rw [hsplit]
      exact noCardsOfList_runOps (listCleanup_noCards σ l.id) _
    · rw [hsplit]
      exact ih _ l hrest

theorem boardCleanupOps_eq (σ : St) (bid : Nat) :
    boardCleanupOps σ bid =
      listsCleanupOps σ (σ.lists.filter (fun l => l.boardId == bid))
        ++ [Op.delListsByBoard bid, Op.delLabelsByBoard bid, Op.delBoardMembersByBoard bid] := rfl

theorem boardCleanup_safe (σ : St) (bid : Nat) (h : OrphanFree σ) :
    CascadeSafe σ (boardCleanupOps σ bid) := by
  rw [boardCleanupOps_eq]
  have h₁ := listsCleanup_safe (σ.lists.filter (fun l => l.boardId == bid)) σ h
  refine cascadeSafe_append h₁ ?_
  have hOF₁ := cascadeSafe_last h₁
  have hOF₂ : OrphanFree (applyOp (Op.delListsByBoard bid)
      (runOps σ (listsCleanupOps σ (σ.lists.filter (fun l => l.boardId == bid))))) := by
    refine OF_applyOp_delListsByBoard hOF₁ ?_
    intro l hlm heq
    have hlσ : l ∈ σ.lists.filter (fun l => l.boardId == bid) :=
      List.mem_filter.mpr ⟨(mem_runOps_lists.mp hlm).1, by simp [heq]⟩
    exact listsCleanup_noCards _ σ l hlσ
  have hOF₃ := OF_applyOp_childOnly (o := Op.delLabelsByBoard bid) trivial hOF₂
  have hOF₄ := OF_applyOp_childOnly (o := Op.delBoardMembersByBoard bid) trivial hOF₃
  exact cascadeSafe_cons hOF₁ (cascadeSafe_cons hOF₂
    (cascadeSafe_cons hOF₃ (cascadeSafe_nil hOF₄)))

theorem boardCleanup_noKids (σ : St) (bid : Nat) :
    (∀ l ∈ (runOps σ (boardCleanupOps σ bid)).lists, l.boardId ≠ bid) ∧
    (∀ x ∈ (runOps σ (boardCleanupOps σ bid)).labels, x.boardId ≠ bid) ∧
    (∀ x ∈ (runOps σ (boardCleanupOps σ bid)).boardMembers, x.boardId ≠ bid) := by
  have hopL : Op.delListsByBoard bid ∈ boardCleanupOps σ bid := by
    rw [boardCleanupOps_eq]; simp
  have hopLab : Op.delLabelsByBoard bid ∈ boardCleanupOps σ bid := by
    rw [boardCleanupOps_eq]; simp
  have hopBM : Op.delBoardMembersByBoard bid ∈ boardCleanupOps σ bid := by
    rw [boardCleanupOps_eq]; simp
  refine ⟨?_, ?_, ?_⟩
  · intro l hlm
    have := (mem_runOps_lists.mp hlm).2 _ hopL
    simpa [hitsList] using this
  · intro x hx
    have := (mem_runOps_labels.mp hx).2 _ hopLab
    simpa [hitsLabel] using this
  · intro x hx
    have := (mem_runOps_boardMembers.mp hx).2 _ hopBM
    simpa [hitsBoardMember] using this

theorem deleteBoardTrace_safe (σ : St) (bid : Nat) (h : OrphanFree σ) :
    CascadeSafe σ (deleteBoardTrace σ bid) := by
  have h₁ := boardCleanup_safe σ bid h
  refine cascadeSafe_append h₁ ?_
  have hOF₁ := cascadeSafe_last h₁
  obtain ⟨k₁, k₂, k₃⟩ := boardCleanup_noKids σ bid
  exact cascadeSafe_cons hOF₁
    (cascadeSafe_nil (OF_applyOp_delBoardById hOF₁ k₁ k₂ k₃))

theorem cardOpsIn_mono {ops ops' : List Op} (σbase : St) {cid : Nat}
    (h : CardOpsIn ops σbase cid) (hsub : ∀ o ∈ ops, o ∈ ops') :
    CardOpsIn ops' σbase cid := by
  obtain ⟨h₁, h₂, h₃, h₄, h₅⟩ := h
  exact ⟨hsub _ h₁, hsub _ h₂, hsub _ h₃, hsub _ h₄,
    fun cl hcl heq => hsub _ (h₅ cl hcl heq)⟩

theorem cardCleanup_cardOpsIn (σ₀ σbase : St) (cid : Nat)
    (hcl : ∀ cl ∈ σbase.checklists, cl.cardId = cid → cl ∈ σ₀.checklists) :
    CardOpsIn (cardCleanupOps σ₀ cid) σbase cid := by
  obtain ⟨m₁, m₂, m₃, m₄⟩ := cardCleanupOps_mem_basic σ₀ cid
  exact ⟨m₁, m₂, m₃, m₄,
    fun cl hclm heq => cardCleanupOps_mem_item σ₀ cid (hcl cl hclm heq) heq⟩

theorem cardCleanupOps_hitsCard_false {σ : St} {cid : Nat} :
    ∀ o ∈ cardCleanupOps σ cid, ∀ c : CardR, hitsCard o c = false := by
  intro o ho c
  rcases cardCleanupOps_shape ho with rfl | rfl | rfl | rfl | ⟨cl, _, _, rfl⟩ <;> rfl

theorem cardCleanup_keeps_checklist (σ₀ : St) (cid : Nat) {cl : ChecklistR}
    (hclm : cl ∈ σ₀.checklists) (hne : cl.cardId ≠ cid) :
    cl ∈ (runOps σ₀ (cardCleanupOps σ₀ cid)).checklists := by
  rw [mem_runOps_checklists]
  refine ⟨hclm, ?_⟩
  intro o ho
  rcases cardCleanupOps_shape ho with rfl | rfl | rfl | rfl | ⟨cl', _, _, rfl⟩
  · rfl
  · rfl
  · rfl
  · simpa [hitsChecklist] using hne
  · rfl

theorem cardsCleanup_cardOpsIn (cs : List CardR) : ∀ (σ₀ : St) {σbase : St} {c : CardR},
    c ∈ cs →
    (∀ cl ∈ σbase.checklists, cl.cardId = c.id → cl ∈ σ₀.checklists) →
    CardOpsIn (cardsCleanupOps σ₀ cs) σbase c.id := by
  induction cs with
  | nil => intro σ₀ σbase c hc; exact absurd hc (List.not_mem_nil c)
  | cons c₀ rest ih =>
    intro σ₀ σbase c hc hcl
    rw [cardsCleanupOps_cons]
    by_cases hid : c.id = c₀.id
    · refine cardOpsIn_mono σbase ?_ (fun o ho => List.mem_append_left _ ho)
      rw [hid]
      exact cardCleanup_cardOpsIn σ₀ σbase c₀.id (fun cl hclm heq => hcl cl hclm (by rw [heq, hid]))
    · have hrest : c ∈ rest := by
        rcases List.mem_cons.mp hc with rfl | h
        · exact absurd rfl hid
        · exact h
      refine cardOpsIn_mono σbase ?_ (fun o ho => List.mem_append_right _ ho)
      refine ih _ hrest ?_
      intro cl hclm heq
      exact cardCleanup_keeps_checklist σ₀ c₀.id (hcl cl hclm heq) (by rw [heq]; exact hid)

theorem cardsCleanupOps_hitsCard_false {cs : List CardR} {σ : St} :
    ∀ o ∈ cardsCleanupOps σ cs, ∀ c : CardR, hitsCard o c = false := by
  intro o ho c
  rcases cardsCleanupOps_shape cs σ ho with ⟨c', _, h⟩
  rcases h with rfl | rfl | rfl | rfl | ⟨cl, _, _, rfl⟩ <;> rfl

theorem listCleanup_keeps_card (σ₀ : St) (lid : Nat) {c : CardR}
    (hcm : c ∈ σ₀.cards) (hne : c.listId ≠ lid) :
    c ∈ (runOps σ₀ (listCleanupOps σ₀ lid)).cards := by
  rw [mem_runOps_cards]
  refine ⟨hcm, ?_⟩
  intro o ho
  rw [listCleanupOps_eq] at ho
  rcases List.mem_append.mp ho with hcc | hlast
  · exact cardsCleanupOps_hitsCard_false o hcc c
  · simp only [List.mem_singleton] at hlast
    subst hlast
    simpa [hitsCard] using hne

theorem listCleanup_keeps_checklist (σ₀ : St) (lid : Nat) {cl : ChecklistR}
    (hclm : cl ∈ σ₀.checklists)
    (hne : ∀ c'' ∈ σ₀.cards, c''.listId = lid → cl.cardId ≠ c''.id) :
    cl ∈ (runOps σ₀ (listCleanupOps σ₀ lid)).checklists := by
  rw [mem_runOps_checklists]
  refine ⟨hclm, ?_⟩
  intro o ho
  rw [listCleanupOps_eq] at ho
  rcases List.mem_append.mp ho with hcc | hlast
  · rcases cardsCleanupOps_shape _ _ hcc with ⟨c'', hc'', h⟩
    obtain ⟨hc''m, hc''l⟩ := List.mem_filter.mp hc''
    rcases h with rfl | rfl | rfl | rfl | ⟨cl', _, _, rfl⟩
    · rfl
    · rfl
    · rfl
    · simpa [hitsChecklist] using hne c'' hc''m (by simpa using hc''l)
    · rfl
  · simp only [List.mem_singleton] at hlast
    subst hlast
    rfl

theorem listsCleanup_cardOpsIn (ls : List ListR) : ∀ (σ₀ : St) {σbase : St} {l : ListR} {c : CardR},
    l ∈ ls → c.listId = l.id → c ∈ σ₀.cards →
    (∀ cl ∈ σbase.checklists, cl.cardId = c.id → cl ∈ σ₀.checklists) →
    (∀ c' ∈ σ₀.cards, c' ∈ σbase.cards) →
    σbase.cards.Pairwise (fun a b => a.id ≠ b.id) →
    CardOpsIn (listsCleanupOps σ₀ ls) σbase c.id := by
  induction ls with
  | nil => intro σ₀ σbase l c hl; exact absurd hl (List.not_mem_nil l)
  | cons l₀ rest ih =>
    intro σ₀ σbase l c hl hcl hc₀ hclin hsubca hpc
    rw [listsCleanupOps_cons]
    by_cases hlid : l.id = l₀.id
    · refine cardOpsIn_mono σbase ?_ (fun o ho =>
        List.mem_append_left _ (by rw [listCleanupOps_eq]; exact List.mem_append_left _ ho))
      refine cardsCleanup_cardOpsIn _ σ₀ ?_ hclin
      exact List.mem_filter.mpr ⟨hc₀, by simp [hcl, hlid]⟩
    · have hlrest : l ∈ rest := by
        rcases List.mem_cons.mp hl with rfl | h
        · exact absurd rfl hlid
        · exact h
      refine cardOpsIn_mono σbase ?_ (fun o ho => List.mem_append_right _ ho)
      have hcne : c.listId ≠ l₀.id := by rw [hcl]; exact hlid
      refine ih _ hlrest hcl (listCleanup_keeps_card σ₀ l₀.id hc₀ hcne) ?_ ?_ hpc
      · intro cl hclm heq
        refine listCleanup_keeps_checklist σ₀ l₀.id (hclin cl hclm heq) ?_
        intro c'' hc'' hc''l
        rw [heq]
        have hcbase : c ∈ σbase.cards := hsubca c hc₀
        have hc''base : c'' ∈ σbase.cards := hsubca c'' hc''
        have hne : c ≠ c'' := by
          intro hcc
          rw [hcc] at hcl
          exact hlid (hcl.symm.trans hc''l)
        exact List.Pairwise.forall (fun a b h => h.symm) hpc hcbase hc''base hne
      · intro c' hc'
        exact hsubca c' (mem_runOps_cards.mp hc').1

/-! ### Tables an op sequence never touches -/

theorem boards_applyOp_keep {o : Op} {σ : St} (h : ∀ b, hitsBoard o b = false) :
    (applyOp o σ).boards = σ.boards := by
  simp [applyOp, h]

theorem lists_applyOp_keep {o : Op} {σ : St} (h : ∀ l, hitsList o l = false) :
    (applyOp o σ).lists = σ.lists := by
  simp [applyOp, h]

theorem cards_applyOp_keep {o : Op} {σ : St} (h : ∀ c, hitsCard o c = false) :
    (applyOp o σ).cards = σ.cards := by
  simp [applyOp, h]

theorem labels_applyOp_keep {o : Op} {σ : St} (h : ∀ x, hitsLabel o x = false) :
    (applyOp o σ).labels = σ.labels := by
  simp [applyOp, h]

theorem boardMembers_applyOp_keep {o : Op} {σ : St} (h : ∀ x, hitsBoardMember o x = false) :
    (applyOp o σ).boardMembers = σ.boardMembers := by
  simp [applyOp, h]

theorem boards_runOps_keep {ops : List Op} {σ : St}
    (h : ∀ o ∈ ops, ∀ b, hitsBoard o b = false) : (runOps σ ops).boards = σ.boards := by
  induction ops generalizing σ with
  | nil => rfl
  | cons o rest ih =>
    rw [runOps_cons, ih (fun o' ho' => h o' (by simp [ho'])),
      boards_applyOp_keep (h o (by simp))]

theorem lists_runOps_keep {ops : List Op} {σ : St}
    (h : ∀ o ∈ ops, ∀ l, hitsList o l = false) : (runOps σ ops).lists = σ.lists := by
  induction ops generalizing σ with
  | nil => rfl
  | cons o rest ih =>
    rw [runOps_cons, ih (fun o' ho' => h o' (by simp [ho'])),
      lists_applyOp_keep (h o (by simp))]

theorem cards_runOps_keep {ops : List Op} {σ : St}
    (h : ∀ o ∈ ops, ∀ c, hitsCard o c = false) : (runOps σ ops).cards = σ.cards := by
  induction ops generalizing σ with
  | nil => rfl
  | cons o rest ih =>
    rw [runOps_cons, ih (fun o' ho' => h o' (by simp [ho'])),
      cards_applyOp_keep (h o (by simp))]

theorem labels_runOps_keep {ops : List Op} {σ : St}
    (h : ∀ o ∈ ops, ∀ x, hitsLabel o x = false) : (runOps σ ops).labels = σ.labels := by
  induction ops generalizing σ with
  | nil => rfl
  | cons o rest ih =>
    rw [runOps_cons, ih (fun o' ho' => h o' (by simp [ho'])),
      labels_applyOp_keep (h o (by simp))]

theorem boardMembers_runOps_keep {ops : List Op} {σ : St}
    (h : ∀ o ∈ ops, ∀ x, hitsBoardMember o x = false) :
    (runOps σ ops).boardMembers = σ.boardMembers := by
  induction ops generalizing σ with
  | nil => rfl
  | cons o rest ih =>
    rw [runOps_cons, ih (fun o' ho' => h o' (by simp [ho'])),
      boardMembers_applyOp_keep (h o (by simp))]

theorem listsCleanupOps_shape (ls : List ListR) : ∀ (σ : St) {o : Op},
    o ∈ listsCleanupOps σ ls →
    (∃ l ∈ ls, o = Op.delCardsByList l.id) ∨
    (∃ c ∈ σ.cards, o = Op.delCardLabelsByCard c.id ∨ o = Op.delCardMembersByCard c.id ∨
      o = Op.delCommentsByCard c.id ∨ o = Op.delChecklistsByCard c.id) ∨
    (∃ cl ∈ σ.checklists, o = Op.delChecklistItemsByChecklist cl.id) := by
  induction ls with
  | nil => intro σ o ho; exact absurd ho (List.not_mem_nil o)
  | cons l₀ rest ih =>
    intro σ o ho
    rw [listsCleanupOps_cons, List.mem_append] at ho
    rcases ho with ho | ho
    · rw [listCleanupOps_eq, List.mem_append] at ho
      rcases ho with ho | ho
      · rcases cardsCleanupOps_shape _ _ ho with ⟨c, hcf, h⟩
        have hcσ := (List.mem_filter.mp hcf).1
        rcases h with rfl | rfl | rfl | rfl | ⟨cl, hcl, _, rfl⟩
        · exact Or.inr (Or.inl ⟨c, hcσ, Or.inl rfl⟩)
        · exact Or.inr (Or.inl ⟨c, hcσ, Or.inr (Or.inl rfl)⟩)
        · exact Or.inr (Or.inl ⟨c, hcσ, Or.inr (Or.inr (Or.inl rfl))⟩)
        · exact Or.inr (Or.inl ⟨c, hcσ, Or.inr (Or.inr (Or.inr rfl))⟩)
        · exact Or.inr (Or.inr ⟨cl, hcl, rfl⟩)
      · simp only [List.mem_singleton] at ho
        exact Or.inl ⟨l₀, by simp, ho⟩
    · rcases ih _ ho with ⟨l, hl, h⟩ | ⟨c, hc, h⟩ | ⟨cl, hcl, h⟩
      · exact Or.inl ⟨l, by simp [hl], h⟩
      · exact Or.inr (Or.inl ⟨c, (mem_runOps_cards.mp hc).1, h⟩)
      · exact Or.inr (Or.inr ⟨cl, (mem_runOps_checklists.mp hcl).1, h⟩)

theorem listsCleanupOps_mem_delCards (ls : List ListR) : ∀ (σ : St), ∀ l ∈ ls,
    Op.delCardsByList l.id ∈ listsCleanupOps σ ls := by
  induction ls with
  | nil => intro σ l hl; exact absurd hl (List.not_mem_nil l)
  | cons l₀ rest ih =>
    intro σ l hl
    rw [listsCleanupOps_cons]
    rcases List.mem_cons.mp hl with rfl | hrest
    · refine List.mem_append_left _ ?_
      rw [listCleanupOps_eq]
      exact List.mem_append_right _ (by simp)
    · exact List.mem_append_right _ (ih _ l hrest)

theorem boardCleanupOps_hitsBoard_false {σ : St} {bid : Nat} :
    ∀ o ∈ boardCleanupOps σ bid, ∀ b : BoardR, hitsBoard o b = false := by
  intro o ho b
  rw [boardCleanupOps_eq] at ho
  rcases List.mem_append.mp ho with hls | htail
  · rcases listsCleanupOps_shape _ _ hls with ⟨l, _, rfl⟩ | ⟨c, _, h⟩ | ⟨cl, _, rfl⟩
    · rfl
    · rcases h with rfl | rfl | rfl | rfl <;> rfl
    · rfl
  · simp only [List.mem_cons, List.not_mem_nil, or_false] at htail
    rcases htail with rfl | rfl | rfl <;> rfl

theorem listCleanupOps_hitsList_false {σ : St} {lid : Nat} :
    ∀ o ∈ listCleanupOps σ lid, ∀ l : ListR, hitsList o l = false := by
  intro o ho l
  rw [listCleanupOps_eq] at ho
  rcases List.mem_append.mp ho with hcc | hlast
  · rcases cardsCleanupOps_shape _ _ hcc with ⟨c, _, h⟩
    rcases h with rfl | rfl | rfl | rfl | ⟨cl, _, _, rfl⟩ <;> rfl
  · simp only [List.mem_singleton] at hlast
    subst hlast
    rfl

/-- The final store state of each cascade is the state after its full
trace. -/
theorem deleteBoard_snd (σ : St) (bid : Nat) :
    (deleteBoard σ bid).2 = runOps σ (deleteBoardTrace σ bid) := by
  show applyOp (Op.delBoardById bid) (runOps σ (boardCleanupOps σ bid)) = _
  rw [deleteBoardTrace, runOps_append]
  rfl

theorem deleteList_snd (σ : St) (lid : Nat) :
    (deleteList σ lid).2 = runOps σ (deleteListTrace σ lid) := by
  show applyOp (Op.delListById lid) (runOps σ (listCleanupOps σ lid)) = _
  rw [deleteListTrace, runOps_append]
  rfl

theorem deleteCard_snd (σ : St) (cid : Nat) :
    (deleteCard σ cid).2 = runOps σ (deleteCardTrace σ cid) := by
  show applyOp (Op.delCardById cid) (runOps σ (cardCleanupOps σ cid)) = _
  rw [deleteCardTrace, runOps_append]
  rfl

theorem deleteChecklist_snd (σ : St) (clid : Nat) :
    (deleteChecklist σ clid).2 = runOps σ (deleteChecklistTrace clid) := rfl

/-! ### Deletes that match no row leave the store unchanged -/

theorem applyOp_id {o : Op} {σ : St}
    (h₁ : ∀ x ∈ σ.boards, hitsBoard o x = false)
    (h₂ : ∀ x ∈ σ.lists, hitsList o x = false)
    (h₃ : ∀ x ∈ σ.cards, hitsCard o x = false)
    (h₄ : ∀ x ∈ σ.labels, hitsLabel o x = false)
    (h₅ : ∀ x ∈ σ.cardLabels, hitsCardLabel o x = false)
    (h₆ : ∀ x ∈ σ.cardMembers, hitsCardMember o x = false)
    (h₇ : ∀ x ∈ σ.comments, hitsComment o x = false)
    (h₈ : ∀ x ∈ σ.checklists, hitsChecklist o x = false)
    (h₉ : ∀ x ∈ σ.checklistItems, hitsChecklistItem o x = false)
    (h₁₀ : ∀ x ∈ σ.boardMembers, hitsBoardMember o x = false) :
    applyOp o σ = σ := by
  refine St.ext ?_ ?_ ?_ ?_ ?_ ?_ ?_ ?_ ?_ ?_ ?_
  · rfl
  · exact List.filter_eq_self.mpr (fun a ha => by simp [h₁ a ha])
  · exact List.filter_eq_self.mpr (fun a ha => by simp [h₂ a ha])
  · exact List.filter_eq_self.mpr (fun a ha => by simp [h₃ a ha])
  · exact List.filter_eq_self.mpr (fun a ha => by simp [h₄ a ha])
  · exact List.filter_eq_self.mpr (fun a ha => by simp [h₅ a ha])
  · exact List.filter_eq_self.mpr (fun a ha => by simp [h₆ a ha])
  · exact List.filter_eq_self.mpr (fun a ha => by simp [h₇ a ha])
  · exact List.filter_eq_self.mpr (fun a ha => by simp [h₈ a ha])
  · exact List.filter_eq_self.mpr (fun a ha => by simp [h₉ a ha])
  · exact List.filter_eq_self.mpr (fun a ha => by simp [h₁₀ a ha])

theorem runOps_id {ops : List Op} {σ : St} (h : ∀ o ∈ ops, applyOp o σ = σ) :
    runOps σ ops = σ := by
  induction ops with
  | nil => rfl
  | cons o rest ih =>
    rw [runOps_cons, h o (by simp)]
    exact ih (fun o' ho' => h o' (by simp [ho']))

/-- Deleting a nonexistent card in an orphan-free store returns `false` and
leaves every table unchanged. -/
theorem deleteCard_missing (σ : St) (cid : Nat) (hOF : OrphanFree σ)
    (hmiss : ∀ c ∈ σ.cards, c.id ≠ cid) : deleteCard σ cid = (false, σ) := by
  obtain ⟨o₁, o₂, o₃, o₄, o₅, o₆, o₇, o₈, o₉⟩ := hOF
  have hnoop : ∀ o ∈ cardCleanupOps σ cid, applyOp o σ = σ := by
    intro o ho
    rcases cardCleanupOps_shape ho with rfl | rfl | rfl | rfl | ⟨cl, hcl, hcid, rfl⟩
    · refine applyOp_id (fun x _ => rfl) (fun x _ => rfl) (fun x _ => rfl) (fun x _ => rfl)
        ?_ (fun x _ => rfl) (fun x _ => rfl) (fun x _ => rfl) (fun x _ => rfl) (fun x _ => rfl)
      intro x hx
      obtain ⟨c, hc, hcid₂⟩ := o₅ x hx
      simp only [hitsCardLabel, beq_eq_false_iff_ne, ne_eq]
      rw [← hcid₂]
      exact hmiss c hc
    · refine applyOp_id (fun x _ => rfl) (fun x _ => rfl) (fun x _ => rfl) (fun x _ => rfl)
        (fun x _ => rfl) ?_ (fun x _ => rfl) (fun x _ => rfl) (fun x _ => rfl) (fun x _ => rfl)
      intro x hx
      obtain ⟨c, hc, hcid₂⟩ := o₆ x hx
      simp only [hitsCardMember, beq_eq_false_iff_ne, ne_eq]
      rw [← hcid₂]
      exact hmiss c hc
    · refine applyOp_id (fun x _ => rfl) (fun x _ => rfl) (fun x _ => rfl) (fun x _ => rfl)
        (fun x _ => rfl) (fun x _ => rfl) ?_ (fun x _ => rfl) (fun x _ => rfl) (fun x _ => rfl)
      intro x hx
      obtain ⟨c, hc, hcid₂⟩ := o₇ x hx
      simp only [hitsComment, beq_eq_false_iff_ne, ne_eq]
      rw [← hcid₂]
      exact hmiss c hc
    · refine applyOp_id (fun x _ => rfl) (fun x _ => rfl) (fun x _ => rfl) (fun x _ => rfl)
        (fun x _ => rfl) (fun x _ => rfl) (fun x _ => rfl) ?_ (fun x _ => rfl) (fun x _ => rfl)
      intro x hx
      obtain ⟨c, hc, hcid₂⟩ := o₈ x hx
      simp only [hitsChecklist, beq_eq_false_iff_ne, ne_eq]
      rw [← hcid₂]
      exact hmiss c hc
    · obtain ⟨c, hc, hcid₂⟩ := o₈ cl hcl
      exact absurd (hcid₂.trans hcid) (hmiss c hc)
  have hσ₁ : runOps σ (cardCleanupOps σ cid) = σ := runOps_id hnoop
  show ((runOps σ (cardCleanupOps σ cid)).cards.any (fun c => c.id == cid),
        applyOp (Op.delCardById cid) (runOps σ (cardCleanupOps σ cid))) = (false, σ)
  rw [hσ₁]
  refine Prod.ext ?_ ?_
  · exact List.any_eq_false.mpr (fun c hc => by simpa using hmiss c hc)
  · refine applyOp_id (fun x _ => rfl) (fun x _ => rfl) ?_ (fun x _ => rfl)
      (fun x _ => rfl) (fun x _ => rfl) (fun x _ => rfl) (fun x _ => rfl)
      (fun x _ => rfl) (fun x _ => rfl)
    intro x hx
    simpa [hitsCard] using hmiss x hx

/-- Deleting a nonexistent list in an orphan-free store returns `false` and
leaves every table unchanged. -/
theorem deleteList_missing (σ : St) (lid : Nat) (hOF : OrphanFree σ)
    (hmiss : ∀ l ∈ σ.lists, l.id ≠ lid) : deleteList σ lid = (false, σ) := by
  obtain ⟨o₁, o₂, o₃, o₄, o₅, o₆, o₇, o₈, o₉⟩ := hOF
  have hnocard : ∀ c ∈ σ.cards, c.listId ≠ lid := by
    intro c hc heq
    obtain ⟨l, hl, hlid⟩ := o₂ c hc
    exact hmiss l hl (hlid.trans heq)
  have hcs : σ.cards.filter (fun c => c.listId == lid) = [] :=
    List.filter_eq_nil_iff.mpr (fun c hc => by simpa using hnocard c hc)
  have hops : listCleanupOps σ lid = [Op.delCardsByList lid] := by
    rw [listCleanupOps_eq, hcs]
    rfl
  have hnoop : applyOp (Op.delCardsByList lid) σ = σ := by
    refine applyOp_id (fun x _ => rfl) (fun x _ => rfl) ?_ (fun x _ => rfl)
      (fun x _ => rfl) (fun x _ => rfl) (fun x _ => rfl) (fun x _ => rfl)
      (fun x _ => rfl) (fun x _ => rfl)
    intro x hx
    simpa [hitsCard] using hnocard x hx
  have hσ₁ : runOps σ (listCleanupOps σ lid) = σ := by
    rw [hops]
    show runOps (applyOp (Op.delCardsByList lid) σ) [] = σ
    rw [hnoop]
    rfl
  show ((runOps σ (listCleanupOps σ lid)).lists.any (fun l => l.id == lid),
        applyOp (Op.delListById lid) (runOps σ (listCleanupOps σ lid))) = (false, σ)
  rw [hσ₁]
  refine Prod.ext ?_ ?_
  · exact List.any_eq_false.mpr (fun l hl => by simpa using hmiss l hl)
  · refine applyOp_id (fun x _ => rfl) ?_ (fun x _ => rfl) (fun x _ => rfl)
      (fun x _ => rfl) (fun x _ => rfl) (fun x _ => rfl) (fun x _ => rfl)
      (fun x _ => rfl) (fun x _ => rfl)
    intro x hx
    simpa [hitsList] using hmiss x hx

/-- Deleting a nonexistent board in an orphan-free store returns `false`
and leaves every table unchanged. -/
theorem deleteBoard_missing (σ : St) (bid : Nat) (hOF : OrphanFree σ)
    (hmiss : ∀ b ∈ σ.boards, b.id ≠ bid) : deleteBoard σ bid = (false, σ) := by
  obtain ⟨o₁, o₂, o₃, o₄, o₅, o₆, o₇, o₈, o₉⟩ := hOF
  have hnolist : ∀ l ∈ σ.lists, l.boardId ≠ bid := by
    intro l hl heq
    obtain ⟨b, hb, hbid⟩ := o₁ l hl
    exact hmiss b hb (hbid.trans heq)
  have hls : σ.lists.filter (fun l => l.boardId == bid) = [] :=
    List.filter_eq_nil_iff.mpr (fun l hl => by simpa using hnolist l hl)
  have hops : boardCleanupOps σ bid =
      [Op.delListsByBoard bid, Op.delLabelsByBoard bid, Op.delBoardMembersByBoard bid] := by
    rw [boardCleanupOps_eq, hls]
    rfl
  have hn₁ : applyOp (Op.delListsByBoard bid) σ = σ := by
    refine applyOp_id (fun x _ => rfl) ?_ (fun x _ => rfl) (fun x _ => rfl)
      (fun x _ => rfl) (fun x _ => rfl) (fun x _ => rfl) (fun x _ => rfl)
      (fun x _ => rfl) (fun x _ => rfl)
    intro x hx
    simpa [hitsList] using hnolist x hx
  have hn₂ : applyOp (Op.delLabelsByBoard bid) σ = σ := by
    refine applyOp_id (fun x _ => rfl) (fun x _ => rfl) (fun x _ => rfl) ?_
      (fun x _ => rfl) (fun x _ => rfl) (fun x _ => rfl) (fun x _ => rfl)
      (fun x _ => rfl) (fun x _ => rfl)
    intro x hx
    obtain ⟨b, hb, hbid⟩ := o₃ x hx
    simp only [hitsLabel, beq_eq_false_iff_ne, ne_eq]
    rw [← hbid]
    exact hmiss b hb
  have hn₃ : applyOp (Op.delBoardMembersByBoard bid) σ = σ := by
    refine applyOp_id (fun x _ => rfl) (fun x _ => rfl) (fun x _ => rfl) (fun x _ => rfl)
      (fun x _ => rfl) (fun x _ => rfl) (fun x _ => rfl) (fun x _ => rfl)
      (fun x _ => rfl) ?_
    intro x hx
    obtain ⟨b, hb, hbid⟩ := o₄ x hx
    simp only [hitsBoardMember, beq_eq_false_iff_ne, ne_eq]
    rw [← hbid]
    exact hmiss b hb
  have hσ₁ : runOps σ (boardCleanupOps σ bid) = σ := by
    rw [hops]
    show runOps (applyOp (Op.delListsByBoard bid) σ)
      [Op.delLabelsByBoard bid, Op.delBoardMembersByBoard bid] = σ
    rw [hn₁]
    show runOps (applyOp (Op.delLabelsByBoard bid) σ) [Op.delBoardMembersByBoard bid] = σ
    rw [hn₂]
    show runOps (applyOp (Op.delBoardMembersByBoard bid) σ) [] = σ
    rw [hn₃]
    rfl
  show ((runOps σ (boardCleanupOps σ bid)).boards.any (fun b => b.id == bid),
        applyOp (Op.delBoardById bid) (runOps σ (boardCleanupOps σ bid))) = (false, σ)
  rw [hσ₁]
  refine Prod.ext ?_ ?_
  · exact List.any_eq_false.mpr (fun b hb => by simpa using hmiss b hb)
  · refine applyOp_id ?_ (fun x _ => rfl) (fun x _ => rfl) (fun x _ => rfl)
      (fun x _ => rfl) (fun x _ => rfl) (fun x _ => rfl) (fun x _ => rfl)
      (fun x _ => rfl) (fun x _ => rfl)
    intro x hx
    simpa [hitsBoard] using hmiss x hx

/-- Deleting a nonexistent checklist in an orphan-free store returns
`false` and leaves every table unchanged. -/
theorem deleteChecklist_missing (σ : St) (clid : Nat) (hOF : OrphanFree σ)
    (hmiss : ∀ cl ∈ σ.checklists, cl.id ≠ clid) : deleteChecklist σ clid = (false, σ) := by
  obtain ⟨o₁, o₂, o₃, o₄, o₅, o₆, o₇, o₈, o₉⟩ := hOF
  have hn₁ : applyOp (Op.delChecklistItemsByChecklist clid) σ = σ := by
    refine applyOp_id (fun x _ => rfl) (fun x _ => rfl) (fun x _ => rfl) (fun x _ => rfl)
      (fun x _ => rfl) (fun x _ => rfl) (fun x _ => rfl) (fun x _ => rfl)
      ?_ (fun x _ => rfl)
    intro x hx
    obtain ⟨cl, hcl, hclid⟩ := o₉ x hx
    simp only [hitsChecklistItem, beq_eq_false_iff_ne, ne_eq]
    rw [← hclid]
    exact hmiss cl hcl
  show ((applyOp (Op.delChecklistItemsByChecklist clid) σ).checklists.any (fun cl => cl.id == clid),
        applyOp (Op.delChecklistById clid) (applyOp (Op.delChecklistItemsByChecklist clid) σ)) = (false, σ)
  rw [hn₁]
  refine Prod.ext ?_ ?_
  · exact List.any_eq_false.mpr (fun cl hcl => by simpa using hmiss cl hcl)
  · refine applyOp_id (fun x _ => rfl) (fun x _ => rfl) (fun x _ => rfl) (fun x _ => rfl)
      (fun x _ => rfl) (fun x _ => rfl) (fun x _ => rfl) ?_
      (fun x _ => rfl) (fun x _ => rfl)
    intro x hx
    simpa [hitsChecklist] using hmiss x hx

theorem runE_no_fail {fails : Nat → Bool} : ∀ (ops : List Op) (k : Nat) (σ : St),
    (∀ i, i < ops.length → fails (k + i) = false) →
    runE fails ops k σ = (true, runOps σ ops) := by
  intro ops
  induction ops with
  | nil => intro k σ _; rfl
  | cons o rest ih =>
    intro k σ h
    have h₀ : fails k = false := by simpa using h 0 (by simp)
    show (if fails k then (false, σ) else runE fails rest (k + 1) (applyOp o σ)) = _
    rw [h₀]
    simp only [Bool.false_eq_true, if_false]
    rw [ih (k + 1) (applyOp o σ) ?_]
    · rfl
    · intro i hi
      have := h (i + 1) (by simpa using Nat.succ_lt_succ hi)
      simpa [show k + (i + 1) = k + 1 + i by omega] using this

theorem runE_fail_at {fails : Nat → Bool} : ∀ (ops : List Op) (j k : Nat) (σ : St),
    j < ops.length → (∀ i, i < j → fails (k + i) = false) → fails (k + j) = true →
    runE fails ops k σ = (false, runOps σ (ops.take j)) := by
  intro ops
  induction ops with
  | nil => intro j k σ hj; exact absurd hj (by simp)
  | cons o rest ih =>
    intro j k σ hj hbef hf
    show (if fails k then (false, σ) else runE fails rest (k + 1) (applyOp o σ)) = _
    cases j with
    | zero =>
      have : fails k = true := by simpa using hf
      rw [this]
      simp
    | succ j' =>
      have h₀ : fails k = false := by simpa using hbef 0 (by omega)
      rw [h₀]
      simp only [Bool.false_eq_true, if_false]
      rw [ih j' (k + 1) (applyOp o σ) (by simpa using Nat.lt_of_succ_lt_succ hj) ?_ ?_]
      · rfl
      · intro i hi
        have := hbef (i + 1) (by omega)
        simpa [show k + (i + 1) = k + 1 + i by omega] using this
      · simpa [show k + (j' + 1) = k + 1 + j' by omega] using hf

theorem finishE_no_fail {fails : Nat → Bool} {A : List Op} {fin : Op} {q : St → Bool} {σ : St}
    (h : ∀ i, i < A.length + 1 → fails i = false) :
    finishE fails A fin q σ = (q (runOps σ A), applyOp fin (runOps σ A)) := by
  unfold finishE
  rw [runE_no_fail A 0 σ (fun i hi => by simpa using h i (by omega))]
  simp only
  rw [h A.length (by omega)]
  simp

theorem finishE_fail_at {fails : Nat → Bool} {A : List Op} {fin : Op} {q : St → Bool} {σ : St}
    (j : Nat) (hj : j < A.length + 1) (hbef : ∀ i, i < j → fails i = false)
    (hf : fails j = true) :
    finishE fails A fin q σ = (false, runOps σ ((A ++ [fin]).take j)) := by
  unfold finishE
  by_cases hjn : j < A.length
  · rw [runE_fail_at A j 0 σ hjn (fun i hi => by simpa using hbef i hi) (by simpa using hf)]
    simp only [Bool.false_eq_true, if_false]
    rw [List.take_append_of_le_length (Nat.le_of_lt hjn)]
  · have hje : j = A.length := by omega
    rw [runE_no_fail A 0 σ (fun i hi => by simpa using hbef i (by omega))]
    simp only
    rw [hje] at hf
    rw [hf]
    simp only [if_true]
    subst hje
    rw [List.take_left A [fin]]

theorem deleteCardE_no_fail {fails : Nat → Bool} {σ : St} {cid : Nat}
    (h : ∀ i, i < (deleteCardTrace σ cid).length → fails i = false) :
    deleteCardE fails σ cid = deleteCard σ cid := by
  have hlen : (deleteCardTrace σ cid).length = (cardCleanupOps σ cid).length + 1 := by
    simp [deleteCardTrace]
  exact finishE_no_fail (fun i hi => h i (by omega))

theorem deleteListE_no_fail {fails : Nat → Bool} {σ : St} {lid : Nat}
    (h : ∀ i, i < (deleteListTrace σ lid).length → fails i = false) :
    deleteListE fails σ lid = deleteList σ lid := by
  have hlen : (deleteListTrace σ lid).length = (listCleanupOps σ lid).length + 1 := by
    simp [deleteListTrace]
  exact finishE_no_fail (fun i hi => h i (by omega))

theorem deleteBoardE_no_fail {fails : Nat → Bool} {σ : St} {bid : Nat}
    (h : ∀ i, i < (deleteBoardTrace σ bid).length → fails i = false) :
    deleteBoardE fails σ bid = deleteBoard σ bid := by
  have hlen : (deleteBoardTrace σ bid).length = (boardCleanupOps σ bid).length + 1 := by
    simp [deleteBoardTrace]
  exact finishE_no_fail (fun i hi => h i (by omega))

theorem deleteChecklistE_no_fail {fails : Nat → Bool} {σ : St} {clid : Nat}
    (h : ∀ i, i < (deleteChecklistTrace clid).length → fails i = false) :
    deleteChecklistE fails σ clid = deleteChecklist σ clid := by
  exact finishE_no_fail (fun i hi => h i (by simpa [deleteChecklistTrace] using hi))

theorem deleteCardE_fail_at {fails : Nat → Bool} {σ : St} {cid : Nat} {j : Nat}
    (hj : j < (deleteCardTrace σ cid).length) (hbef : ∀ i, i < j → fails i = false)
    (hf : fails j = true) :
    deleteCardE fails σ cid = (false, runOps σ ((deleteCardTrace σ cid).take j)) := by
  have hlen : (deleteCardTrace σ cid).length = (cardCleanupOps σ cid).length + 1 := by
    simp [deleteCardTrace]
  exact finishE_fail_at j (by omega) hbef hf

theorem deleteListE_fail_at {fails : Nat → Bool} {σ : St} {lid : Nat} {j : Nat}
    (hj : j < (deleteListTrace σ lid).length) (hbef : ∀ i, i < j → fails i = false)
    (hf : fails j = true) :
    deleteListE fails σ lid = (false, runOps σ ((deleteListTrace σ lid).take j)) := by
  have hlen : (deleteListTrace σ lid).length = (listCleanupOps σ lid).length + 1 := by
    simp [deleteListTrace]
  exact finishE_fail_at j (by omega) hbef hf

theorem deleteBoardE_fail_at {fails : Nat → Bool} {σ : St} {bid : Nat} {j : Nat}
    (hj : j < (deleteBoardTrace σ bid).length) (hbef : ∀ i, i < j → fails i = false)
    (hf : fails j = true) :
    deleteBoardE fails σ bid = (false, runOps σ ((deleteBoardTrace σ bid).take j)) := by
  have hlen : (deleteBoardTrace σ bid).length = (boardCleanupOps σ bid).length + 1 := by
    simp [deleteBoardTrace]
  exact finishE_fail_at j (by omega) hbef hf

theorem deleteChecklistE_fail_at {fails : Nat → Bool} {σ : St} {clid : Nat} {j : Nat}
    (hj : j < (deleteChecklistTrace clid).length) (hbef : ∀ i, i < j → fails i = false)
    (hf : fails j = true) :
    deleteChecklistE fails σ clid = (false, runOps σ ((deleteChecklistTrace clid).take j)) := by
  have hj' : j < 2 := by simpa [deleteChecklistTrace] using hj
  exact finishE_fail_at j (by simpa using hj') hbef hf

/-! ### deleteBoard clears every row under the board -/

theorem deleteBoard_fst (σ : St) (bid : Nat) :
    (deleteBoard σ bid).1 = σ.boards.any (fun b => b.id == bid) := by
  show (runOps σ (boardCleanupOps σ bid)).boards.any (fun b => b.id == bid) = _
  rw [boards_runOps_keep boardCleanupOps_hitsBoard_false]

theorem deleteBoard_boards_cleared (σ : St) (bid : Nat) :
    ∀ b ∈ (deleteBoard σ bid).2.boards, b.id ≠ bid := by
  intro b hb
  have := (mem_applyOp_boards.mp hb).2
  simpa [hitsBoard] using this

theorem mem_trace_of_mem_listsCleanup {σ : St} {bid : Nat} {o : Op}
    (ho : o ∈ listsCleanupOps σ (σ.lists.filter (fun l => l.boardId == bid))) :
    o ∈ deleteBoardTrace σ bid := by
  refine List.mem_append_left _ ?_
  rw [boardCleanupOps_eq]
  exact List.mem_append_left _ ho

theorem deleteBoardTrace_mem_tail (σ : St) (bid : Nat) :
    Op.delListsByBoard bid ∈ deleteBoardTrace σ bid ∧
    Op.delLabelsByBoard bid ∈ deleteBoardTrace σ bid ∧
    Op.delBoardMembersByBoard bid ∈ deleteBoardTrace σ bid := by
  refine ⟨?_, ?_, ?_⟩ <;>
    · rw [deleteBoardTrace, boardCleanupOps_eq]
      simp

theorem deleteBoard_clears (σ : St) (bid : Nat) (hU : UniqueIds σ) :
    (∀ l ∈ (deleteBoard σ bid).2.lists, l.boardId ≠ bid) ∧
    (∀ x ∈ (deleteBoard σ bid).2.labels, x.boardId ≠ bid) ∧
    (∀ x ∈ (deleteBoard σ bid).2.boardMembers, x.boardId ≠ bid) ∧
    (∀ c ∈ (deleteBoard σ bid).2.cards, ∀ l ∈ σ.lists, l.boardId = bid → c.listId ≠ l.id) ∧
    (∀ x ∈ (deleteBoard σ bid).2.cardLabels, ∀ c ∈ σ.cards, ∀ l ∈ σ.lists,
      l.boardId = bid → c.listId = l.id → x.cardId ≠ c.id) ∧
    (∀ x ∈ (deleteBoard σ bid).2.cardMembers, ∀ c ∈ σ.cards, ∀ l ∈ σ.lists,
      l.boardId = bid → c.listId = l.id → x.cardId ≠ c.id) ∧
    (∀ x ∈ (deleteBoard σ bid).2.comments, ∀ c ∈ σ.cards, ∀ l ∈ σ.lists,
      l.boardId = bid → c.listId = l.id → x.cardId ≠ c.id) ∧
    (∀ cl ∈ (deleteBoard σ bid).2.checklists, ∀ c ∈ σ.cards, ∀ l ∈ σ.lists,
      l.boardId = bid → c.listId = l.id → cl.cardId ≠ c.id) ∧
    (∀ it ∈ (deleteBoard σ bid).2.checklistItems, ∀ cl ∈ σ.checklists, ∀ c ∈ σ.cards,
      ∀ l ∈ σ.lists, l.boardId = bid → c.listId = l.id → cl.cardId = c.id →
      it.checklistId ≠ cl.id) := by
  obtain ⟨tLB, tLab, tBM⟩ := deleteBoardTrace_mem_tail σ bid
  have hsnd := deleteBoard_snd σ bid
  have hops : ∀ (c : CardR) (l : ListR), l ∈ σ.lists → l.boardId = bid → c ∈ σ.cards →
      c.listId = l.id → CardOpsIn (deleteBoardTrace σ bid) σ c.id := by
    intro c l hlm hlb hcm hcl
    have hlf : l ∈ σ.lists.filter (fun l => l.boardId == bid) :=
      List.mem_filter.mpr ⟨hlm, by simp [hlb]⟩
    refine cardOpsIn_mono σ ?_ (fun o ho => mem_trace_of_mem_listsCleanup ho)
    exact listsCleanup_cardOpsIn _ σ hlf hcl hcm (fun cl hcl' _ => hcl')
      (fun c' hc' => hc') hU.2.1
  refine ⟨?_, ?_, ?_, ?_, ?_, ?_, ?_, ?_, ?_⟩
  · intro l hl
    rw [hsnd] at hl
    have := (mem_runOps_lists.mp hl).2 _ tLB
    simpa [hitsList] using this
  · intro x hx
    rw [hsnd] at hx
    have := (mem_runOps_labels.mp hx).2 _ tLab
    simpa [hitsLabel] using this
  · intro x hx
    rw [hsnd] at hx
    have := (mem_runOps_boardMembers.mp hx).2 _ tBM
    simpa [hitsBoardMember] using this
  · intro c hc l hlm hlb
    rw [hsnd] at hc
    have hlf : l ∈ σ.lists.filter (fun l => l.boardId == bid) :=
      List.mem_filter.mpr ⟨hlm, by simp [hlb]⟩
    have hop := mem_trace_of_mem_listsCleanup (listsCleanupOps_mem_delCards _ σ l hlf)
    have := (mem_runOps_cards.mp hc).2 _ hop
    simpa [hitsCard] using this
  · intro x hx c hcm l hlm hlb hcl
    rw [hsnd] at hx
    have := (mem_runOps_cardLabels.mp hx).2 _ (hops c l hlm hlb hcm hcl).1
    simpa [hitsCardLabel] using this
  · intro x hx c hcm l hlm hlb hcl
    rw [hsnd] at hx
    have := (mem_runOps_cardMembers.mp hx).2 _ (hops c l hlm hlb hcm hcl).2.1
    simpa [hitsCardMember] using this
  · intro x hx c hcm l hlm hlb hcl
    rw [hsnd] at hx
    have := (mem_runOps_comments.mp hx).2 _ (hops c l hlm hlb hcm hcl).2.2.1
    simpa [hitsComment] using this
  · intro cl hcl c hcm l hlm hlb hclid
    rw [hsnd] at hcl
    have := (mem_runOps_checklists.mp hcl).2 _ (hops c l hlm hlb hcm hclid).2.2.2.1
    simpa [hitsChecklist] using this
  · intro it hit cl hclm c hcm l hlm hlb hcl hclc
    rw [hsnd] at hit
    have := (mem_runOps_checklistItems.mp hit).2 _
      ((hops c l hlm hlb hcm hcl).2.2.2.2 cl hclm hclc)
    simpa [hitsChecklistItem] using this

/-! ### Frame lemmas: what deleteList and deleteCard do not touch -/

theorem deleteListTrace_classify {σ : St} {lid : Nat} {o : Op}
    (ho : o ∈ deleteListTrace σ lid) :
    o = Op.delListById lid ∨ o = Op.delCardsByList lid ∨
    (∃ c ∈ σ.cards, c.listId = lid ∧ (o = Op.delCardLabelsByCard c.id ∨
      o = Op.delCardMembersByCard c.id ∨ o = Op.delCommentsByCard c.id ∨
      o = Op.delChecklistsByCard c.id)) ∨
    (∃ cl ∈ σ.checklists, ∃ c ∈ σ.cards, c.listId = lid ∧ cl.cardId = c.id ∧
      o = Op.delChecklistItemsByChecklist cl.id) := by
  rw [deleteListTrace, List.mem_append] at ho
  rcases ho with ho | ho
  · rw [listCleanupOps_eq, List.mem_append] at ho
    rcases ho with ho | ho
    · rcases cardsCleanupOps_shape _ _ ho with ⟨c, hcf, h⟩
      obtain ⟨hcm, hcll⟩ := List.mem_filter.mp hcf
      have hcl : c.listId = lid := by simpa using hcll
      rcases h with rfl | rfl | rfl | rfl | ⟨cl, hclm, hclc, rfl⟩
      · exact Or.inr (Or.inr (Or.inl ⟨c, hcm, hcl, Or.inl rfl⟩))
      · exact Or.inr (Or.inr (Or.inl ⟨c, hcm, hcl, Or.inr (Or.inl rfl)⟩))
      · exact Or.inr (Or.inr (Or.inl ⟨c, hcm, hcl, Or.inr (Or.inr (Or.inl rfl))⟩))
      · exact Or.inr (Or.inr (Or.inl ⟨c, hcm, hcl, Or.inr (Or.inr (Or.inr rfl))⟩))
      · exact Or.inr (Or.inr (Or.inr ⟨cl, hclm, c, hcm, hcl, hclc, rfl⟩))
    · simp only [List.mem_singleton] at ho
      exact Or.inr (Or.inl ho)
  · simp only [List.mem_singleton] at ho
    exact Or.inl ho

theorem deleteCardTrace_classify {σ : St} {cid : Nat} {o : Op}
    (ho : o ∈ deleteCardTrace σ cid) :
    o = Op.delCardById cid ∨ o = Op.delCardLabelsByCard cid ∨
    o = Op.delCardMembersByCard cid ∨ o = Op.delCommentsByCard cid ∨
    o = Op.delChecklistsByCard cid ∨
    (∃ cl ∈ σ.checklists, cl.cardId = cid ∧ o = Op.delChecklistItemsByChecklist cl.id) := by
  rw [deleteCardTrace, List.mem_append] at ho
  rcases ho with ho | ho
  · rcases cardCleanupOps_shape ho with rfl | rfl | rfl | rfl | ⟨cl, hclm, hclc, rfl⟩
    · exact Or.inr (Or.inl rfl)
    · exact Or.inr (Or.inr (Or.inl rfl))
    · exact Or.inr (Or.inr (Or.inr (Or.inl rfl)))
    · exact Or.inr (Or.inr (Or.inr (Or.inr (Or.inl rfl))))
    · exact Or.inr (Or.inr (Or.inr (Or.inr (Or.inr ⟨cl, hclm, hclc, rfl⟩))))
  · simp only [List.mem_singleton] at ho
    exact Or.inl ho

theorem deleteList_frame (σ : St) (lid : Nat) (hU : UniqueIds σ) :
    ((deleteList σ lid).2.boards = σ.boards) ∧
    ((deleteList σ lid).2.labels = σ.labels) ∧
    ((deleteList σ lid).2.boardMembers = σ.boardMembers) ∧
    ((deleteList σ lid).2.users = σ.users) ∧
    (∀ l ∈ σ.lists, l.id ≠ lid → l ∈ (deleteList σ lid).2.lists) ∧
    (∀ c ∈ σ.cards, c.listId ≠ lid → c ∈ (deleteList σ lid).2.cards) ∧
    (∀ x ∈ σ.cardLabels, ∀ c₀ ∈ σ.cards, c₀.id = x.cardId → c₀.listId ≠ lid →
      x ∈ (deleteList σ lid).2.cardLabels) ∧
    (∀ x ∈ σ.cardMembers, ∀ c₀ ∈ σ.cards, c₀.id = x.cardId → c₀.listId ≠ lid →
      x ∈ (deleteList σ lid).2.cardMembers) ∧
    (∀ x ∈ σ.comments, ∀ c₀ ∈ σ.cards, c₀.id = x.cardId → c₀.listId ≠ lid →
      x ∈ (deleteList σ lid).2.comments) ∧
    (∀ cl ∈ σ.checklists, ∀ c₀ ∈ σ.cards, c₀.id = cl.cardId → c₀.listId ≠ lid →
      cl ∈ (deleteList σ lid).2.checklists) ∧
    (∀ it ∈ σ.checklistItems, ∀ cl₀ ∈ σ.checklists, cl₀.id = it.checklistId →
      ∀ c₀ ∈ σ.cards, c₀.id = cl₀.cardId → c₀.listId ≠ lid →
      it ∈ (deleteList σ lid).2.checklistItems) := by
  have hsnd := deleteList_snd σ lid
  have pcards := List.Pairwise.forall (R := fun a b : CardR => a.id ≠ b.id)
    (fun a b h => h.symm) hU.2.1
  have pchk := List.Pairwise.forall (R := fun a b : ChecklistR => a.id ≠ b.id)
    (fun a b h => h.symm) hU.2.2
  refine ⟨?_, ?_, ?_, ?_, ?_, ?_, ?_, ?_, ?_, ?_, ?_⟩
  · rw [hsnd]
    refine boards_runOps_keep ?_
    intro o ho b
    rcases deleteListTrace_classify ho with rfl | rfl | ⟨c, _, _, h⟩ | ⟨cl, _, c, _, _, _, rfl⟩
    · rfl
    · rfl
    · rcases h with rfl | rfl | rfl | rfl <;> rfl
    · rfl
  · rw [hsnd]
    refine labels_runOps_keep ?_
    intro o ho x
    rcases deleteListTrace_classify ho with rfl | rfl | ⟨c, _, _, h⟩ | ⟨cl, _, c, _, _, _, rfl⟩
    · rfl
    · rfl
    · rcases h with rfl | rfl | rfl | rfl <;> rfl
    · rfl
  · rw [hsnd]
    refine boardMembers_runOps_keep ?_
    intro o ho x
    rcases deleteListTrace_classify ho with rfl | rfl | ⟨c, _, _, h⟩ | ⟨cl, _, c, _, _, _, rfl⟩
    · rfl
    · rfl
    · rcases h with rfl | rfl | rfl | rfl <;> rfl
    · rfl
  · rw [hsnd, users_runOps]
  · intro l hl hne
    rw [hsnd, mem_runOps_lists]
    refine ⟨hl, ?_⟩
    intro o ho
    rcases deleteListTrace_classify ho with rfl | rfl | ⟨c, _, _, h⟩ | ⟨cl, _, c, _, _, _, rfl⟩
    · simpa [hitsList] using hne
    · rfl
    · rcases h with rfl | rfl | rfl | rfl <;> rfl
    · rfl
  · intro c hc hne
    rw [hsnd, mem_runOps_cards]
    refine ⟨hc, ?_⟩
    intro o ho
    rcases deleteListTrace_classify ho with rfl | rfl | ⟨c', _, _, h⟩ | ⟨cl, _, c', _, _, _, rfl⟩
    · rfl
    · simpa [hitsCard] using hne
    · rcases h with rfl | rfl | rfl | rfl <;> rfl
    · rfl
  · intro x hx c₀ hc₀ hid hne
    rw [hsnd, mem_runOps_cardLabels]
    refine ⟨hx, ?_⟩
    intro o ho
    rcases deleteListTrace_classify ho with rfl | rfl | ⟨c, hcm, hcl, h⟩ | ⟨cl, _, c, _, _, _, rfl⟩
    · rfl
    · rfl
    · have hcc : x.cardId ≠ c.id := by
        rw [← hid]
        exact pcards hc₀ hcm (fun he => hne (he ▸ hcl))
      rcases h with rfl | rfl | rfl | rfl
      · simpa [hitsCardLabel] using hcc
      · rfl
      · rfl
      · rfl
    · rfl
  · intro x hx c₀ hc₀ hid hne
    rw [hsnd, mem_runOps_cardMembers]
    refine ⟨hx, ?_⟩
    intro o ho
    rcases deleteListTrace_classify ho with rfl | rfl | ⟨c, hcm, hcl, h⟩ | ⟨cl, _, c, _, _, _, rfl⟩
    · rfl
    · rfl
    · have hcc : x.cardId ≠ c.id := by
        rw [← hid]
        exact pcards hc₀ hcm (fun he => hne (he ▸ hcl))
      rcases h with rfl | rfl | rfl | rfl
      · rfl
      · simpa [hitsCardMember] using hcc
      · rfl
      · rfl
    · rfl
  · intro x hx c₀ hc₀ hid hne
    rw [hsnd, mem_runOps_comments]
    refine ⟨hx, ?_⟩
    intro o ho
    rcases deleteListTrace_classify ho with rfl | rfl | ⟨c, hcm, hcl, h⟩ | ⟨cl, _, c, _, _, _, rfl⟩
    · rfl
    · rfl
    · have hcc : x.cardId ≠ c.id := by
        rw [← hid]
        exact pcards hc₀ hcm (fun he => hne (he ▸ hcl))
      rcases h with rfl | rfl | rfl | rfl
      · rfl
      · rfl
      · simpa [hitsComment] using hcc
      · rfl
    · rfl
  · intro cl hclm c₀ hc₀ hid hne
    rw [hsnd, mem_runOps_checklists]
    refine ⟨hclm, ?_⟩
    intro o ho
    rcases deleteListTrace_classify ho with rfl | rfl | ⟨c, hcm, hcl, h⟩ | ⟨cl', _, c, _, _, _, rfl⟩
    · rfl
    · rfl
    · have hcc : cl.cardId ≠ c.id := by
        rw [← hid]
        exact pcards hc₀ hcm (fun he => hne (he ▸ hcl))
      rcases h with rfl | rfl | rfl | rfl
      · rfl
      · rfl
      · rfl
      · simpa [hitsChecklist] using hcc
    · rfl
  · intro it hit cl₀ hcl₀ hid c₀ hc₀ hcid hne
    rw [hsnd, mem_runOps_checklistItems]
    refine ⟨hit, ?_⟩
    intro o ho
    rcases deleteListTrace_classify ho with rfl | rfl | ⟨c, hcm, hcl, h⟩ |
      ⟨cl, hclm, c, hcm, hcll, hclc, rfl⟩
    · rfl
    · rfl
    · rcases h with rfl | rfl | rfl | rfl <;> rfl
    · simp only [hitsChecklistItem, beq_eq_false_iff_ne, ne_eq]
      intro heq
      have hcleq : cl₀ = cl := by
        by_contra hne₂
        exact pchk hcl₀ hclm hne₂ (hid.trans heq)
      have hceq : c₀.id = c.id := by
        rw [hcid, hcleq, hclc]
      have hcne : c₀ ≠ c := fun he => hne (he ▸ hcll)
      exact pcards hc₀ hcm hcne hceq

theorem deleteCard_frame (σ : St) (cid : Nat) (hU : UniqueIds σ) :
    ((deleteCard σ cid).2.boards = σ.boards) ∧
    ((deleteCard σ cid).2.lists = σ.lists) ∧
    ((deleteCard σ cid).2.labels = σ.labels) ∧
    ((deleteCard σ cid).2.boardMembers = σ.boardMembers) ∧
    ((deleteCard σ cid).2.users = σ.users) ∧
    (∀ c ∈ σ.cards, c.id ≠ cid → c ∈ (deleteCard σ cid).2.cards) ∧
    (∀ x ∈ σ.cardLabels, x.cardId ≠ cid → x ∈ (deleteCard σ cid).2.cardLabels) ∧
    (∀ x ∈ σ.cardMembers, x.cardId ≠ cid → x ∈ (deleteCard σ cid).2.cardMembers) ∧
    (∀ x ∈ σ.comments, x.cardId ≠ cid → x ∈ (deleteCard σ cid).2.comments) ∧
    (∀ cl ∈ σ.checklists, cl.cardId ≠ cid → cl ∈ (deleteCard σ cid).2.checklists) ∧
    (∀ it ∈ σ.checklistItems, ∀ cl₀ ∈ σ.checklists, cl₀.id = it.checklistId →
      cl₀.cardId ≠ cid → it ∈ (deleteCard σ cid).2.checklistItems) := by
  have hsnd := deleteCard_snd σ cid
  have pchk := List.Pairwise.forall (R := fun a b : ChecklistR => a.id ≠ b.id)
    (fun a b h => h.symm) hU.2.2
  refine ⟨?_, ?_, ?_, ?_, ?_, ?_, ?_, ?_, ?_, ?_, ?_⟩
  · rw [hsnd]
    refine boards_runOps_keep ?_
    intro o ho b
    rcases deleteCardTrace_classify ho with rfl | rfl | rfl | rfl | rfl | ⟨cl, _, _, rfl⟩ <;> rfl
  · rw [hsnd]
    refine lists_runOps_keep ?_
    intro o ho l
    rcases deleteCardTrace_classify ho with rfl | rfl | rfl | rfl | rfl | ⟨cl, _, _, rfl⟩ <;> rfl
  · rw [hsnd]
    refine labels_runOps_keep ?_
    intro o ho x
    rcases deleteCardTrace_classify ho with rfl | rfl | rfl | rfl | rfl | ⟨cl, _, _, rfl⟩ <;> rfl
  · rw [hsnd]
    refine boardMembers_runOps_keep ?_
    intro o ho x
    rcases deleteCardTrace_classify ho with rfl | rfl | rfl | rfl | rfl | ⟨cl, _, _, rfl⟩ <;> rfl
  · rw [hsnd, users_runOps]
  · intro c hc hne
    rw [hsnd, mem_runOps_cards]
    refine ⟨hc, ?_⟩
    intro o ho
    rcases deleteCardTrace_classify ho with rfl | rfl | rfl | rfl | rfl | ⟨cl, _, _, rfl⟩
    · simpa [hitsCard] using hne
    · rfl
    · rfl
    · rfl
    · rfl
    · rfl
  · intro x hx hne
    rw [hsnd, mem_runOps_cardLabels]
    refine ⟨hx, ?_⟩
    intro o ho
    rcases deleteCardTrace_classify ho with rfl | rfl | rfl | rfl | rfl | ⟨cl, _, _, rfl⟩
    · rfl
    · simpa [hitsCardLabel] using hne
    · rfl
    · rfl
    · rfl
    · rfl
  · intro x hx hne
    rw [hsnd, mem_runOps_cardMembers]
    refine ⟨hx, ?_⟩
    intro o ho
    rcases deleteCardTrace_classify ho with rfl | rfl | rfl | rfl | rfl | ⟨cl, _, _, rfl⟩
    · rfl
    · rfl
    · simpa [hitsCardMember] using hne
    · rfl
    · rfl
    · rfl
  · intro x hx hne
    rw [hsnd, mem_runOps_comments]
    refine ⟨hx, ?_⟩
    intro o ho
    rcases deleteCardTrace_classify ho with rfl | rfl | rfl | rfl | rfl | ⟨cl, _, _, rfl⟩
    · rfl
    · rfl
    · rfl
    · simpa [hitsComment] using hne
    · rfl
    · rfl
  · intro cl hclm hne
    rw [hsnd, mem_runOps_checklists]
    refine ⟨hclm, ?_⟩
    intro o ho
    rcases deleteCardTrace_classify ho with rfl | rfl | rfl | rfl | rfl | ⟨cl', _, _, rfl⟩
    · rfl
    · rfl
    · rfl
    · rfl
    · simpa [hitsChecklist] using hne
    · rfl
  · intro it hit cl₀ hcl₀ hid hne
    rw [hsnd, mem_runOps_checklistItems]
    refine ⟨hit, ?_⟩
    intro o ho
    rcases deleteCardTrace_classify ho with rfl | rfl | rfl | rfl | rfl | ⟨cl, hclm, hclc, rfl⟩
    · rfl
    · rfl
    · rfl
    · rfl
    · rfl
    · simp only [hitsChecklistItem, beq_eq_false_iff_ne, ne_eq]
      intro heq
      have hcleq : cl₀ = cl := by
        by_contra hne₂
        exact pchk hcl₀ hclm hne₂ (hid.trans heq)
      exact hne (hcleq ▸ hclc)

theorem adminCheck_iff (r : String) :
    (r != "" && toLowerStr r == "admin") = true ↔ toLowerStr r = "admin" := by
  constructor
  · intro h
    simp at h
    exact h.2
  · intro h
    have hne : r ≠ "" := by
      intro he
      subst he
      exact absurd h (by decide)
    simp [h, hne]

/-! ### The claims -/

/-- C1: for every board id and store with unique surrogate keys,
`deleteBoard` returns true exactly when the board row existed, a second
call on the same id returns false, and no List, Card, CardLabel,
CardMember, Comment, Checklist, ChecklistItem, Label or BoardMember row
that referenced the board directly or transitively remains afterwards. -/
theorem spec_C1 (σ : St) (bid : Nat) (hU : UniqueIds σ) : C1Post σ bid := by
  refine ⟨?_, ?_, deleteBoard_clears σ bid hU⟩
  · rw [deleteBoard_fst, List.any_eq_true]
    simp
  · rw [deleteBoard_fst]
    exact List.any_eq_false.mpr
      (fun b hb => by simpa using deleteBoard_boards_cleared σ bid b hb)

theorem spec_C1_witness : UniqueIds σex ∧ C1Post σex 1 :=
  ⟨by decide, spec_C1 σex 1 (by decide)⟩

/-- C2: the board-access decision of `GET /api/boards/:id` grants access
iff the caller is an admin, the board's owner, or has a BoardMember row;
an anonymous caller is granted access exactly when the board has no
owner. -/
theorem spec_C2 (u : Option UserR) (σ : St) (bid : Nat) (b : BoardR)
    (hb : getBoardRow σ bid = some b) :
    boardAccess u σ bid = AccessResult.ok ↔
      ((∃ user, u = some user ∧ (toLowerStr user.role = "admin" ∨ b.userId = some user.id ∨
        ∃ bm ∈ σ.boardMembers, bm.boardId = bid ∧ bm.userId = user.id)) ∨
       (u = none ∧ b.userId = none)) := by
  simp only [boardAccess, hb]
  cases u with
  | none =>
    show (if b.userId != none then AccessResult.denied else AccessResult.ok)
        = AccessResult.ok ↔ _
    cases hbu : b.userId with
    | none => simp
    | some v => simp
  | some user =>
    show (if user.role != "" && toLowerStr user.role == "admin" then AccessResult.ok
          else if b.userId == some user.id then AccessResult.ok
          else match getBoardMemberRow σ bid user.id with
            | some _ => AccessResult.ok
            | none => AccessResult.denied) = AccessResult.ok ↔ _
    by_cases h₁ : (user.role != "" && toLowerStr user.role == "admin") = true
    · rw [if_pos h₁]
      constructor
      · intro _
        exact Or.inl ⟨user, rfl, Or.inl ((adminCheck_iff user.role).mp h₁)⟩
      · intro _
        rfl
    · rw [if_neg h₁]
      by_cases h₂ : b.userId = some user.id
      · rw [if_pos (by simpa using h₂)]
        constructor
        · intro _
          exact Or.inl ⟨user, rfl, Or.inr (Or.inl h₂)⟩
        · intro _
          rfl
      · rw [if_neg (by simpa using h₂)]
        cases hbm : getBoardMemberRow σ bid user.id with
        | some bm =>
          show AccessResult.ok = AccessResult.ok ↔ _
          constructor
          · intro _
            refine Or.inl ⟨user, rfl, Or.inr (Or.inr ?_)⟩
            have hmem := List.mem_of_find?_eq_some hbm
            have hp := List.find?_some hbm
            simp at hp
            exact ⟨bm, hmem, hp.1, hp.2⟩
          · intro _
            rfl
        | none =>
          show AccessResult.denied = AccessResult.ok ↔ _
          constructor
          · intro hcontra
            exact absurd hcontra (by decide)
          · intro hor
            rcases hor with ⟨user', huser', hcases⟩ | ⟨hnone, _⟩
            · injection huser' with he
              subst he
              rcases hcases with hadm | hown | ⟨bm, hbmm, hb1, hb2⟩
              · exact absurd ((adminCheck_iff user.role).mpr hadm) h₁
              · exact absurd hown h₂
              · have hnone := List.find?_eq_none.mp hbm bm hbmm
                simp at hnone
                exact absurd hb2 (hnone hb1)
            · exact absurd hnone (by simp)

theorem spec_C2_witness :
    getBoardRow σex 1 = some ⟨1, some 2⟩ ∧
    (boardAccess (some ⟨1, "admin"⟩) σex 1 = AccessResult.ok ↔
      ((∃ user, some (⟨1, "admin"⟩ : UserR) = some user ∧
        (toLowerStr user.role = "admin" ∨ (⟨1, some 2⟩ : BoardR).userId = some user.id ∨
          ∃ bm ∈ σex.boardMembers, bm.boardId = 1 ∧ bm.userId = user.id)) ∨
       (some (⟨1, "admin"⟩ : UserR) = none ∧ (⟨1, some 2⟩ : BoardR).userId = none))) :=
  ⟨by decide, spec_C2 (some ⟨1, "admin"⟩) σex 1 ⟨1, some 2⟩ (by decide)⟩

/-- C3 (code bug): the anonymous branch of `GET /api/boards` calls
`getBoards()` and therefore returns every board, here a board owned by
user 1, although its own comment and the spec say anonymous callers get
only ownerless boards. -/
theorem spec_C3 :
    boardsVisibleTo none σanon = [⟨1, some 1⟩] ∧
    ∀ b ∈ boardsVisibleTo none σanon, b.userId ≠ none := by
  decide

/-- C4 counterexample: board 1's creator is user 10, yet `getBoardMembers`
reports user 10 with board role `"editor"` (the BoardMember row's role),
not `"owner"`. -/
theorem spec_C4_counterexample :
    σcreator.boards = [⟨1, some 10⟩] ∧
    getBoardMembersM σcreator 1 = [(⟨10, "user"⟩, "editor")] := by
  decide

/-- C4 (amended): every (user, role) pair computed by `getBoardMembers` is
the role of that user's BoardMember row — the board's creator gets no
`"owner"` override, and the `"viewer"` fallback never fires for a
returned user. -/
theorem spec_C4 (σ : St) (bid : Nat) (u : UserR) (r : String)
    (h : (u, r) ∈ getBoardMembersM σ bid) :
    ∃ bm ∈ σ.boardMembers, bm.boardId = bid ∧ bm.userId = u.id ∧ bm.role = r := by
  simp only [getBoardMembersM] at h
  split at h
  · exact absurd h (List.not_mem_nil _)
  · obtain ⟨us, hus, heq⟩ := List.mem_map.mp h
    injection heq with hu hr
    subst hu
    obtain ⟨husm, hcont⟩ := List.mem_filter.mp hus
    cases hfind : (σ.boardMembers.filter (fun bm => bm.boardId == bid)).find?
        (fun bm => bm.userId == us.id) with
    | some bm =>
      have hmem := List.mem_of_find?_eq_some hfind
      have hp := List.find?_some hfind
      obtain ⟨hbm, hbd⟩ := List.mem_filter.mp hmem
      rw [hfind] at hr
      exact ⟨bm, hbm, by simpa using hbd, by simpa using hp, hr⟩
    | none =>
      simp only [List.contains_eq_any_beq] at hcont
      simp at hcont
      obtain ⟨bm, ⟨hbm, hbd⟩, hbmid⟩ := hcont
      have hnf := List.find?_eq_none.mp hfind bm (List.mem_filter.mpr ⟨hbm, by simp [hbd]⟩)
      simp at hnf
      exact absurd hbmid hnf

theorem spec_C4_witness :
    ((⟨10, "user"⟩, "editor") ∈ getBoardMembersM σcreator 1) ∧
    ∃ bm ∈ σcreator.boardMembers, bm.boardId = 1 ∧ bm.userId = 10 ∧ bm.role = "editor" :=
  ⟨by decide, spec_C4 σcreator 1 ⟨10, "user"⟩ "editor" (by decide)⟩

/-- C5: starting from an orphan-free store, every intermediate state of
`deleteBoard`, `deleteList`, `deleteCard` and `deleteChecklist` is
orphan-free — child rows are always deleted before the row they
reference. -/
theorem spec_C5 (σ : St) (h : OrphanFree σ) : C5Post σ :=
  ⟨fun bid => deleteBoardTrace_safe σ bid h,
   fun lid => deleteListTrace_safe σ lid h,
   fun cid => deleteCardTrace_safe σ cid h,
   fun clid => deleteChecklistTrace_safe σ clid h⟩

theorem spec_C5_witness : OrphanFree σex ∧ C5Post σex :=
  ⟨by decide, spec_C5 σex (by decide)⟩

/-- C6: a store error at step `j` of any cascade is caught and surfaces as
`false`, with exactly the deletions issued before step `j` applied (no
rollback); a missing target row yields a plain `false` with the store
unchanged. -/
theorem spec_C6 (σ : St) (fails : Nat → Bool) (j : Nat)
    (hbef : ∀ i, i < j → fails i = false) (hf : fails j = true) (hOF : OrphanFree σ) :
    C6Post σ fails j ∧ C6Missing σ := by
  refine ⟨⟨?_, ?_, ?_, ?_⟩, ⟨?_, ?_, ?_, ?_⟩⟩
  · intro bid hj
    exact deleteBoardE_fail_at hj hbef hf
  · intro lid hj
    exact deleteListE_fail_at hj hbef hf
  · intro cid hj
    exact deleteCardE_fail_at hj hbef hf
  · intro clid hj
    exact deleteChecklistE_fail_at hj hbef hf
  · intro bid g hg hmiss
    rw [deleteBoardE_no_fail hg]
    exact deleteBoard_missing σ bid hOF hmiss
  · intro lid g hg hmiss
    rw [deleteListE_no_fail hg]
    exact deleteList_missing σ lid hOF hmiss
  · intro cid g hg hmiss
    rw [deleteCardE_no_fail hg]
    exact deleteCard_missing σ cid hOF hmiss
  · intro clid g hg hmiss
    rw [deleteChecklistE_no_fail hg]
    exact deleteChecklist_missing σ clid hOF hmiss

theorem spec_C6_witness :
    (∀ i, i < 1 → failsEx i = false) ∧ failsEx 1 = true ∧ OrphanFree σex ∧
    (C6Post σex failsEx 1 ∧ C6Missing σex) :=
  ⟨by decide, by decide, by decide, spec_C6 σex failsEx 1 (by decide) (by decide) (by decide)⟩

/-- C7: `deleteCard` on an id that is no card's id, in an orphan-free
store, returns false and leaves the store exactly unchanged. -/
theorem spec_C7 (σ : St) (cid : Nat) (hOF : OrphanFree σ)
    (hmiss : ∀ c ∈ σ.cards, c.id ≠ cid) : deleteCard σ cid = (false, σ) :=
  deleteCard_missing σ cid hOF hmiss

theorem spec_C7_witness :
    OrphanFree σex ∧ (∀ c ∈ σex.cards, c.id ≠ 99) ∧ deleteCard σex 99 = (false, σex) :=
  ⟨by decide, by decide, spec_C7 σex 99 (by decide) (by decide)⟩

/-- C8: the remove-member route removes a BoardMember row only when the
caller is the board's owner, an admin, or the removed user themselves;
every other caller (including anonymous) is rejected with the store
unchanged; an authorized call on an existing member row removes it. -/
theorem spec_C8 (u : Option UserR) (σ : St) (bid uid : Nat) :
    ((removeMemberHandler u σ bid uid).1 = RemoveMemberResult.removed →
      ∃ user, u = some user ∧ ∃ b, getBoardRow σ bid = some b ∧
        (b.userId = some user.id ∨ toLowerStr user.role = "admin" ∨ user.id = uid)) ∧
    ((∀ user, u = some user → ∀ b, getBoardRow σ bid = some b →
        ¬(b.userId = some user.id ∨ toLowerStr user.role = "admin" ∨ user.id = uid)) →
      (removeMemberHandler u σ bid uid).2 = σ) ∧
    (∀ user b, u = some user → getBoardRow σ bid = some b →
      (b.userId = some user.id ∨ toLowerStr user.role = "admin" ∨ user.id = uid) →
      (∃ bm ∈ σ.boardMembers, bm.boardId = bid ∧ bm.userId = uid) →
      (removeMemberHandler u σ bid uid).1 = RemoveMemberResult.removed ∧
      ∀ bm ∈ (removeMemberHandler u σ bid uid).2.boardMembers,
        ¬(bm.boardId = bid ∧ bm.userId = uid)) := by
  cases hb : getBoardRow σ bid with
  | none =>
    refine ⟨?_, ?_, ?_⟩
    · intro h
      simp [removeMemberHandler, hb] at h
    · intro _
      simp [removeMemberHandler, hb]
    · intro user b hu hbeq
      exact absurd hbeq (by simp)
  | some b =>
    cases u with
    | none =>
      refine ⟨?_, ?_, ?_⟩
      · intro h
        simp [removeMemberHandler, hb] at h
      · intro _
        simp [removeMemberHandler, hb]
      · intro user b' hu
        exact absurd hu (by simp)
    | some user =>
      by_cases hauth :
          (b.userId == some user.id || toLowerStr user.role == "admin" || user.id == uid) = true
      · have hauthP : b.userId = some user.id ∨ toLowerStr user.role = "admin" ∨ user.id = uid :=
          or_assoc.mp (by simpa using hauth)
        refine ⟨?_, ?_, ?_⟩
        · intro _
          exact ⟨user, rfl, b, rfl, hauthP⟩
        · intro hdeny
          exact absurd hauthP (hdeny user rfl b rfl)
        · intro user' b' hu hbeq _ hmem
          injection hu with he
          subst he
          injection hbeq with hbe
          subst hbe
          obtain ⟨bm, hbmm, hb1, hb2⟩ := hmem
          have hmemf : bm ∈ σ.boardMembers.filter (fun bm => bm.boardId == bid && bm.userId == uid) :=
            List.mem_filter.mpr ⟨hbmm, by simp [hb1, hb2]⟩
          have hfe : (σ.boardMembers.filter (fun bm => bm.boardId == bid && bm.userId == uid)).isEmpty = false := by
            cases hfl : σ.boardMembers.filter (fun bm => bm.boardId == bid && bm.userId == uid) with
            | nil => rw [hfl] at hmemf; exact absurd hmemf (List.not_mem_nil _)
            | cons a t => rfl
          constructor
          · simp [removeMemberHandler, hb, hauth, removeMemberFromBoardM, hfe]
          · intro bm' hbm'
            have hbm'' : bm' ∈ ((removeMemberHandler (some user) σ bid uid).2).boardMembers := hbm'
            simp only [removeMemberHandler, hb, hauth, removeMemberFromBoardM, hfe] at hbm''
            simp at hbm''
            intro hc
            rcases hbm''.2 with hne | hne
            · exact hne hc.1
            · exact hne hc.2
      · refine ⟨?_, ?_, ?_⟩
        · intro h
          simp [removeMemberHandler, hb, hauth] at h
        · intro _
          simp [removeMemberHandler, hb, hauth]
        · intro user' b' hu hbeq hor
          injection hu with he
          subst he
          injection hbeq with hbe
          subst hbe
          have hna : ¬((b.userId = some user.id ∨ toLowerStr user.role = "admin") ∨ user.id = uid) := by
            simpa using hauth
          exact absurd (or_assoc.mpr hor) hna

theorem spec_C8_witness :
    (removeMemberHandler (some ⟨2, "user"⟩) σex 1 1).1 = RemoveMemberResult.removed ∧
    ∀ bm ∈ (removeMemberHandler (some ⟨2, "user"⟩) σex 1 1).2.boardMembers,
      ¬(bm.boardId = 1 ∧ bm.userId = 1) :=
  (spec_C8 (some ⟨2, "user"⟩) σex 1 1).2.2 ⟨2, "user"⟩ ⟨1, some 2⟩ rfl (by decide)
    (Or.inl (by decide)) (by decide)

/-- C9: the delete-user route succeeds only for admins, and a target id
equal to the caller's own id is rejected before `deleteUser` is called,
for every caller including admins. -/
theorem spec_C9 (u : Option UserR) (σ : St) (tid : Nat) :
    ((deleteUserHandler u σ tid).1 = DeleteUserResult.deleted →
      ∃ user, u = some user ∧ toLowerStr user.role = "admin" ∧ user.id ≠ tid) ∧
    (∀ user, u = some user → tid = user.id →
      (deleteUserHandler u σ tid).1 ≠ DeleteUserResult.deleted ∧
      (deleteUserHandler u σ tid).2 = σ) := by
  cases u with
  | none =>
    constructor
    · intro h
      simp [deleteUserHandler] at h
    · intro user hu
      exact absurd hu (by simp)
  | some user =>
    by_cases hadm : (toLowerStr user.role != "admin") = true
    · constructor
      · intro h
        simp [deleteUserHandler, hadm] at h
      · intro user' hu htid
        injection hu with he
        subst he
        constructor
        · intro h
          simp [deleteUserHandler, hadm] at h
        · simp [deleteUserHandler, hadm]
    · have hadm' : toLowerStr user.role = "admin" := by simpa using hadm
      by_cases hself : (user.id == tid) = true
      · constructor
        · intro h
          simp [deleteUserHandler, hadm, hself] at h
        · intro user' hu htid
          injection hu with he
          subst he
          constructor
          · intro h
            simp [deleteUserHandler, hadm, hself] at h
          · simp [deleteUserHandler, hadm, hself]
      · constructor
        · intro _
          exact ⟨user, rfl, hadm', by simpa using hself⟩
        · intro user' hu htid
          injection hu with he
          subst he
          exact absurd (by simp [htid]) hself

theorem spec_C9_witness :
    (deleteUserHandler (some ⟨1, "admin"⟩) σex 1).1 ≠ DeleteUserResult.deleted ∧
    (deleteUserHandler (some ⟨1, "admin"⟩) σex 1).2 = σex :=
  (spec_C9 (some ⟨1, "admin"⟩) σex 1).2 ⟨1, "admin"⟩ rfl rfl

/-- C10: in a store with unique surrogate keys, `deleteList` removes only
rows transitively under the list and `deleteCard` only rows transitively
under the card: all other rows, and every Board, Label, BoardMember and
User row, are left in place. -/
theorem spec_C10 (σ : St) (lid cid : Nat) (hU : UniqueIds σ) : C10Post σ lid cid :=
  ⟨deleteList_frame σ lid hU, deleteCard_frame σ cid hU⟩

theorem spec_C10_witness : UniqueIds σex ∧ C10Post σex 1 1 :=
  ⟨by decide, spec_C10 σex 1 1 (by decide)⟩

end Kanban
